import Mathlib

/-!
# CullResult (panda/src/pgraph/cullResult.cxx)

A shallow embedding of the per-frame cull-and-bin aggregate `CullResult`
and a verification of its routing, drawing and pipelining behaviour.

The methods of `CullResult` that live in `cullResult.cxx` are embedded
function by function.  Their collaborators (`RenderState`, `CullBin`,
`CullBinManager`, the inline `get_bin`, the `nassertv`/`nassertr` checks) are
declared elsewhere; they are modelled from the specification, each under a
doc comment that says so, or taken as parameters in `Env`.

State is passed explicitly: a method returns an `Exec` holding how it ended,
the receiver after the call, and the virtual `CullBin` calls it issued, in
order.
-/

namespace Panda

/-! ## Render attributes and RenderState -/

/-- Modelled from the spec: the mode tag of a `TransparencyAttrib`, one of
`{None, Alpha, Binary, Dual, Multisample, ...}`; the enum is declared in
transparencyAttrib.h.  `M_other` stands for the modes the spec leaves
unnamed. -/
inductive TransparencyMode where
  | M_none
  | M_alpha
  | M_binary
  | M_dual
  | M_multisample
  | M_other (tag : Nat)
  deriving DecidableEq, Repr

/-- Modelled from the spec: the comparison of an `AlphaTestAttrib`; the code
builds `M_equal` and `M_less` only, `M_other` stands for the remaining
comparisons of alphaTestAttrib.h. -/
inductive AlphaTestMode where
  | M_less
  | M_equal
  | M_other (tag : Nat)
  deriving DecidableEq, Repr

/-- Modelled from the spec: an alpha-test attribute, a comparison against a
reference alpha.  The only reference value the code writes is `1.0f`; it is
kept as a rational, no arithmetic is done on it. -/
structure AlphaTestAttrib where
  mode : AlphaTestMode
  reference_alpha : ℚ
  deriving DecidableEq

/-- Modelled from the spec: a transparency attribute is its mode tag. -/
structure TransparencyAttrib where
  mode : TransparencyMode
  deriving DecidableEq, Repr

/-- Modelled from the spec: `CullBinAttrib`, the optional override naming an
explicit target bin. -/
structure CullBinAttrib where
  bin_name : String
  deriving DecidableEq, Repr

/-- Modelled from the spec: `RenderState.max_priority()`, the priority
constant.  The spec gives no number for it; nothing below depends on the
number, only on its being the largest priority. -/
def get_max_priority : Int := 1000000000

/-- Modelled from the spec: an override priority; `get_max_priority` is the
maximum, no attribute carries a higher one. -/
structure Priority where
  val : Int
  le_max : val ≤ get_max_priority

/-- The maximum priority as a `Priority`. -/
def Priority.max : Priority := ⟨get_max_priority, le_refl _⟩

/-- Modelled from the spec: one entry of the attribute bag, an attribute and
the priority it was set at. -/
structure Attribute (α : Type) where
  attrib : α
  override : Priority

/-- Modelled from the spec: `RenderState`, an immutable bag of render
attributes keyed by attribute kind, at most one attribute per kind.  The
three kinds `add_object` reads have a slot each; `others` holds the remaining
kinds by kind number. -/
structure RenderState where
  alpha_test : Option (Attribute AlphaTestAttrib)
  transparency : Option (Attribute TransparencyAttrib)
  bin : Option (Attribute CullBinAttrib)
  others : Nat → Option (Attribute Nat)

/-- Modelled from the spec: composition on one attribute kind.  The
attribute of `other` overrides the matching kind, unless the attribute it
would replace has a strictly higher priority. -/
def compose_slot {α : Type} (a b : Option (Attribute α)) : Option (Attribute α) :=
  match a, b with
  | none, b => b
  | some x, none => some x
  | some x, some y => if y.override.val < x.override.val then some x else some y

/-- Modelled from the spec: `RenderState::compose(other)`, a new state with
`other`s attributes overriding matching kinds. -/
def RenderState.compose (self other : RenderState) : RenderState :=
  { alpha_test := compose_slot self.alpha_test other.alpha_test
    transparency := compose_slot self.transparency other.transparency
    bin := compose_slot self.bin other.bin
    others := fun k => compose_slot (self.others k) (other.others k) }

/-- Modelled from the spec: `RenderState::make(attrib1, attrib2, override)`,
the state holding exactly an alpha-test and a transparency attribute, both
at the given priority. -/
def RenderState.make (a : AlphaTestAttrib) (t : TransparencyAttrib)
    (override : Priority) : RenderState :=
  { alpha_test := some ⟨a, override⟩
    transparency := some ⟨t, override⟩
    bin := none
    others := fun _ => none }

/-- Modelled from the spec: `RenderState::get_transparency()`, the
transparency attribute or none. -/
def RenderState.get_transparency (self : RenderState) : Option TransparencyAttrib :=
  self.transparency.map (fun e => e.attrib)

/-- Modelled from the spec: `RenderState::get_bin()`, the bin attribute or
none. -/
def RenderState.get_bin (self : RenderState) : Option CullBinAttrib :=
  self.bin.map (fun e => e.attrib)

/-- Modelled from the spec: the alpha-test attribute of a state or none. -/
def RenderState.get_alpha_test (self : RenderState) : Option AlphaTestAttrib :=
  self.alpha_test.map (fun e => e.attrib)

/-! ## Objects, bins and the result -/

/-- Modelled from the spec: `CullableObject`, a drawable geometry reference
with its render state and transform.  `_state` is a pointer and may be
null. -/
structure CullableObject where
  _geom : Nat
  _state : Option RenderState
  _transform : Nat

/-- A virtual call on a `CullBin`, as issued by a `CullResult`: which slot
of `_bins` the receiver sits in and, for `add_object`, the object handed
over. -/
inductive BinCall where
  | add_object (bin_index : Int) (object : CullableObject)
  | finish_cull (position : Nat)
  | draw (bin_index : Int)

/-- The collaborators of `CullResult`, none of them defined in
cullResult.cxx, for an arbitrary representation `Bin` of `CullBin`:
the bin index a render state resolves to, the global `CullBinManager`
(its draw order and its factory) and the virtual methods of `CullBin`. -/
structure Env (Bin : Type) where
  /-- Accessor `RenderState::get_bin_index()`. -/
  get_bin_index : RenderState → Int
  /-- Manager call `CullBinManager::get_num_bins()`. -/
  get_num_bins : Nat
  /-- Manager call `CullBinManager::get_bin(i)`: the bin index at position `i` of the
  global draw order. -/
  manager_get_bin : Nat → Int
  /-- Manager call `CullBinManager::make_new_bin(bin_index, gsg)`: a new bin, or null
  when `bin_index` is not a registered bin. -/
  manager_make_new_bin : Int → Nat → Option Bin
  /-- Virtual `CullBin::add_object(object)`. -/
  bin_add_object : Bin → CullableObject → Bin
  /-- Virtual `CullBin::finish_cull()`. -/
  bin_finish_cull : Bin → Bin
  /-- Virtual `CullBin::draw()`. -/
  bin_draw : Bin → Bin
  /-- Virtual `CullBin::make_next()`. -/
  bin_make_next : Bin → Bin

/-- The members of `CullResult`: the graphics-state-guardian it is bound to
and the vector of bins, a null pointer being `none`. -/
structure CullResult (Bin : Type) where
  _gsg : Nat
  _bins : List (Option Bin)

/-- Modelled from the spec: how a method ended.  A failed `nassertv` or
`nassertr` is a fatal contract violation: the method stops there. -/
inductive Outcome where
  | returned
  | assertion_failed
  deriving DecidableEq, Repr

/-- The effect of a `void` method of `CullResult`. -/
structure Exec (Bin : Type) where
  outcome : Outcome
  result : CullResult Bin
  calls : List BinCall

variable {Bin : Type}

/-- The pointer `_bins[i]`, null when the slot is null or `i` is past the
end. -/
def bin_at (bins : List (Option Bin)) (i : Nat) : Option Bin :=
  bins.getD i none

/-- The `while` loop of `make_new_bin`: push null slots as long as
`bin_index >= (int)_bins.size()`.  `fuel` bounds the iterations. -/
def push_null_bins (bin_index : Int) : Nat → List (Option Bin) → List (Option Bin)
  | 0, bins => bins
  | fuel + 1, bins =>
    if bin_index ≥ (bins.length : Int) then
      push_null_bins bin_index fuel (bins ++ [none])
    else bins

/-- Method `CullResult::make_new_bin(bin_index)`: the bin the manager allocates,
stored in the vector; null when the manager has none, or when the range
check `nassertr` fails. -/
def CullResult.make_new_bin (env : Env Bin) (self : CullResult Bin) (bin_index : Int) :
    Option Bin × CullResult Bin :=
  match env.manager_make_new_bin bin_index self._gsg with
  | some bin =>
    let bins := push_null_bins bin_index (bin_index + 1 - self._bins.length).toNat self._bins
    if bin_index ≥ 0 ∧ bin_index < (bins.length : Int) then
      (some bin, { self with _bins := bins.set bin_index.toNat (some bin) })
    else
      (none, { self with _bins := bins })
  | none => (none, self)

/-- Modelled from the spec: the inline `CullResult::get_bin(bin_index)` of
cullResult.I, which fetches the bin of that index or lazily creates it via
the manager. -/
def CullResult.get_bin (env : Env Bin) (self : CullResult Bin) (bin_index : Int) :
    Option Bin × CullResult Bin :=
  if bin_index ≥ 0 ∧ bin_index < (self._bins.length : Int) then
    match bin_at self._bins bin_index.toNat with
    | some bin => (some bin, self)
    | none => self.make_new_bin env bin_index
  else self.make_new_bin env bin_index

/-- Method `CullResult::get_binary_state()`. -/
def get_binary_state : RenderState :=
  RenderState.make ⟨AlphaTestMode.M_equal, 1⟩ ⟨TransparencyMode.M_none⟩ Priority.max

/-- Method `CullResult::get_dual_transparent_state()`. -/
def get_dual_transparent_state : RenderState :=
  RenderState.make ⟨AlphaTestMode.M_less, 1⟩ ⟨TransparencyMode.M_alpha⟩ Priority.max

/-- Method `CullResult::get_dual_opaque_state()`. -/
def get_dual_opaque_state : RenderState :=
  RenderState.make ⟨AlphaTestMode.M_equal, 1⟩ ⟨TransparencyMode.M_none⟩ Priority.max

/-- The statement `bin->add_object(object)` for the bin that `get_bin`
returned for `bin_index`: the bin is the one slot `bin_index` points to, so
the slot holds the updated bin afterwards. -/
def CullResult.bin_add_object (env : Env Bin) (self : CullResult Bin) (bin_index : Int)
    (bin : Bin) (object : CullableObject) : CullResult Bin :=
  { self with _bins := self._bins.set bin_index.toNat (some (env.bin_add_object bin object)) }

/-- Lines 103 to 105 of `add_object`: resolve the bin of the object's
state, check it, hand the object over.  `calls` are the bin calls issued so
far. -/
def CullResult.add_object_final (env : Env Bin) (self : CullResult Bin)
    (object : CullableObject) (state : RenderState) (calls : List BinCall) : Exec Bin :=
  let bin_index := env.get_bin_index state
  match self.get_bin env bin_index with
  | (none, self1) => ⟨Outcome.assertion_failed, self1, calls⟩
  | (some bin, self1) =>
    ⟨Outcome.returned, self1.bin_add_object env bin_index bin object,
      calls ++ [BinCall.add_object bin_index object]⟩

/-- The `M_dual` case of `add_object`, lines 71 to 95, followed by the
final routing. -/
def CullResult.add_object_dual (env : Env Bin) (self : CullResult Bin)
    (object : CullableObject) (state : RenderState) : Exec Bin :=
  let bin_attrib := state.get_bin
  if bin_attrib = none ∨ (bin_attrib.map (fun b => b.bin_name.isEmpty)) = some true then
    let transparent_state := state.compose get_dual_transparent_state
    let transparent_part : CullableObject := { object with _state := some transparent_state }
    let bin_index := env.get_bin_index transparent_state
    match self.get_bin env bin_index with
    | (none, self1) => ⟨Outcome.assertion_failed, self1, []⟩
    | (some bin, self1) =>
      let self2 := self1.bin_add_object env bin_index bin transparent_part
      let opaque_state := state.compose get_dual_opaque_state
      self2.add_object_final env { object with _state := some opaque_state } opaque_state
        [BinCall.add_object bin_index transparent_part]
  else
    self.add_object_final env object state []

/-- Method `CullResult::add_object(object)`. -/
def CullResult.add_object (env : Env Bin) (self : CullResult Bin)
    (object : CullableObject) : Exec Bin :=
  match object._state with
  | none => ⟨Outcome.assertion_failed, self, []⟩
  | some state =>
    match state.get_transparency with
    | some transp =>
      match transp.mode with
      | TransparencyMode.M_binary =>
        let binary_state := state.compose get_binary_state
        self.add_object_final env { object with _state := some binary_state } binary_state []
      | TransparencyMode.M_dual => self.add_object_dual env object state
      | _ => self.add_object_final env object state []
    | none => self.add_object_final env object state []

/-- The loop of `finish_cull` from position `i` on: the bins after the
loop and the `finish_cull` calls issued. -/
def finish_cull_loop (env : Env Bin) : Nat → List (Option Bin) → List (Option Bin) × List BinCall
  | _, [] => ([], [])
  | i, none :: rest =>
    let r := finish_cull_loop env (i + 1) rest
    (none :: r.1, r.2)
  | i, some bin :: rest =>
    let r := finish_cull_loop env (i + 1) rest
    (some (env.bin_finish_cull bin) :: r.1, BinCall.finish_cull i :: r.2)

/-- Method `CullResult::finish_cull()`. -/
def CullResult.finish_cull (env : Env Bin) (self : CullResult Bin) : Exec Bin :=
  let r := finish_cull_loop env 0 self._bins
  ⟨Outcome.returned, { self with _bins := r.1 }, r.2⟩

/-- The order the manager reports: `get_bin(i)` for `i` from 0 below
`get_num_bins()`. -/
def manager_order (env : Env Bin) : List Int :=
  (List.range env.get_num_bins).map env.manager_get_bin

/-- The loop body of `draw` over the bin indices the manager still has to
report. -/
def draw_loop (env : Env Bin) : List Int → CullResult Bin → Exec Bin
  | [], self => ⟨Outcome.returned, self, []⟩
  | bin_index :: rest, self =>
    if bin_index ≥ 0 then
      if bin_index < (self._bins.length : Int) then
        match bin_at self._bins bin_index.toNat with
        | some bin =>
          let e := draw_loop env rest
            { self with _bins := self._bins.set bin_index.toNat (some (env.bin_draw bin)) }
          ⟨e.outcome, e.result, BinCall.draw bin_index :: e.calls⟩
        | none => draw_loop env rest self
      else draw_loop env rest self
    else ⟨Outcome.assertion_failed, self, []⟩

/-- Method `CullResult::draw()`. -/
def CullResult.draw (env : Env Bin) (self : CullResult Bin) : Exec Bin :=
  draw_loop env (manager_order env) self

/-- Method `CullResult::make_next()`: the new result, paired with the receiver
after the call. -/
def CullResult.make_next (env : Env Bin) (self : CullResult Bin) :
    CullResult Bin × CullResult Bin :=
  let new_bins := self._bins.map (fun old_bin =>
    match old_bin with
    | none => none
    | some b => some (env.bin_make_next b))
  ({ _gsg := self._gsg, _bins := new_bins }, self)

/-- Method `CullResult::bin_removed(bin_index)`: the body is `nassertv(false)`. -/
def CullResult.bin_removed (self : CullResult Bin) (_bin_index : Int) : Exec Bin :=
  ⟨Outcome.assertion_failed, self, []⟩

/-! ## Descriptions used in the proofs -/

/-- What `get_bin(bin_index)` yields, in closed form: the bin already stored
at a non-negative index, otherwise the one the manager makes for it; never a
bin for a negative index. -/
def CullResult.resolve (env : Env Bin) (self : CullResult Bin) (bin_index : Int) : Option Bin :=
  if 0 ≤ bin_index then
    match bin_at self._bins bin_index.toNat with
    | some bin => some bin
    | none => env.manager_make_new_bin bin_index self._gsg
  else none

/-- The vector after slot `i` has been given the bin `b`: grown with null
slots up to `i` when it was shorter. -/
def store_bin (bins : List (Option Bin)) (i : Nat) (b : Bin) : List (Option Bin) :=
  (bins ++ List.replicate (i + 1 - bins.length) none).set i (some b)

/-- Whether `add_object` splits an object of this state in two: the mode is
`M_dual` and there is no bin override (no bin attribute, or an empty bin
name). -/
def splits (state : RenderState) : Bool :=
  decide (state.get_transparency = some ⟨TransparencyMode.M_dual⟩ ∧
    (state.get_bin = none ∨ (state.get_bin.map (fun b => b.bin_name.isEmpty)) = some true))

/-- The state `add_object` leaves in `object->_state` for an object that
came with `state`, the one whose bin index is resolved at line 103. -/
def final_state (state : RenderState) : RenderState :=
  match state.get_transparency with
  | some transp =>
    match transp.mode with
    | TransparencyMode.M_binary => state.compose get_binary_state
    | TransparencyMode.M_dual =>
      if state.get_bin = none ∨ (state.get_bin.map (fun b => b.bin_name.isEmpty)) = some true
      then state.compose get_dual_opaque_state else state
    | _ => state
  | none => state

/-- Whether the bin index `i` is inside the bin vector and the slot there
holds a bin. -/
def populated (bins : List (Option Bin)) (i : Int) : Bool :=
  decide (0 ≤ i ∧ i < (bins.length : Int)) && (bin_at bins i.toNat).isSome

/-- The results a frame driver can hold: a new result has no bins, and
the public methods lead from one result to the next. -/
inductive Reachable (env : Env Bin) : CullResult Bin → Prop where
  | empty (gsg : Nat) : Reachable env { _gsg := gsg, _bins := [] }
  | add_object (self : CullResult Bin) (object : CullableObject) :
      Reachable env self → Reachable env (self.add_object env object).result
  | finish_cull (self : CullResult Bin) :
      Reachable env self → Reachable env (self.finish_cull env).result
  | draw (self : CullResult Bin) :
      Reachable env self → Reachable env (self.draw env).result
  | make_next (self : CullResult Bin) :
      Reachable env self → Reachable env (self.make_next env).1

/-- A sequence of `add_object` calls on one result, each call carried out
on the result the previous one left, whether that one returned or failed. -/
def add_objects (env : Env Bin) : CullResult Bin → List CullableObject → CullResult Bin
  | self, [] => self
  | self, object :: rest => add_objects env (self.add_object env object).result rest

/-- The bin index of the first bin resolution `add_object` performs for an
object that came with `state`: the one of the clone at line 86 when the
object is split, else the one at line 103. -/
def first_bin_index (env : Env Bin) (state : RenderState) : Int :=
  if splits state then env.get_bin_index (state.compose get_dual_transparent_state)
  else env.get_bin_index (final_state state)

/-! ## A concrete configuration

The scenario of the specification, with one more bin: bins 0 "opaque",
1 "transparent" and 2 "fixed" are registered, the manager draws them in the
order 2, 0, 1, and a bin is represented by the list of the objects it holds,
in arrival order. -/

/-- The bin index of a state in the scenario: the named bin when a
non-empty name is given ("fixed" is bin 2, any other name an unregistered
bin 99), else bin 1 for the modes that blend and bin 0 for the rest. -/
def scene_bin_index (s : RenderState) : Int :=
  match s.get_bin with
  | some b =>
    if b.bin_name.isEmpty then
      (if s.get_transparency = some ⟨TransparencyMode.M_alpha⟩ then 1 else 0)
    else if b.bin_name = "fixed" then 2 else 99
  | none => if s.get_transparency = some ⟨TransparencyMode.M_alpha⟩ then 1 else 0

/-- The collaborators in the scenario. -/
def scene_env : Env (List CullableObject) :=
  { get_bin_index := scene_bin_index
    get_num_bins := 3
    manager_get_bin := fun i => [2, 0, 1].getD i 0
    manager_make_new_bin := fun i _ => if i = 0 ∨ i = 1 ∨ i = 2 then some [] else none
    bin_add_object := fun b o => b ++ [o]
    bin_finish_cull := fun b => b.reverse
    bin_draw := fun _ => []
    bin_make_next := fun _ => [] }

/-- A state holding a transparency attribute only, at priority 0. -/
def scene_state (m : TransparencyMode) : RenderState :=
  { alpha_test := none
    transparency := some ⟨⟨m⟩, ⟨0, by decide⟩⟩
    bin := none
    others := fun _ => none }

/-- A state with that transparency mode and a bin attribute of that name,
both at priority 0. -/
def scene_state_in_bin (m : TransparencyMode) (bin_name : String) : RenderState :=
  { alpha_test := none
    transparency := some ⟨⟨m⟩, ⟨0, by decide⟩⟩
    bin := some ⟨⟨bin_name⟩, ⟨0, by decide⟩⟩
    others := fun _ => none }

/-- A state without any attribute. -/
def plain_state : RenderState :=
  { alpha_test := none, transparency := none, bin := none, others := fun _ => none }

/-- An `M_binary` state that already carries an alpha test (less than 1/2)
and its transparency attribute at the maximum priority. -/
def binary_state_max : RenderState :=
  { alpha_test := some ⟨⟨AlphaTestMode.M_less, 1 / 2⟩, Priority.max⟩
    transparency := some ⟨⟨TransparencyMode.M_binary⟩, Priority.max⟩
    bin := none
    others := fun _ => none }

/-- The object of geometry `g` with the state `s`. -/
def scene_object (g : Nat) (s : RenderState) : CullableObject :=
  { _geom := g, _state := some s, _transform := 0 }

/-- A result without bins, bound to the context 7. -/
def empty_result : CullResult (List CullableObject) := { _gsg := 7, _bins := [] }

/-- The scenario after object X (geometry 1, no attribute) has been added
to the empty result: bin 0 holds X. -/
def result_with_x : CullResult (List CullableObject) :=
  (empty_result.add_object scene_env (scene_object 1 plain_state)).result

/-- The scenario with a manager whose draw order starts with a negative
bin index: -1, then 0. -/
def scene_env_negative : Env (List CullableObject) :=
  { scene_env with
    get_num_bins := 2
    manager_get_bin := fun i => [-1, 0].getD i 0 }

/-- A result holding X in bin 0, nothing in bin 1, an object in bin 2 and an
object in a bin 3 that the manager does not list. -/
def result_with_gap : CullResult (List CullableObject) :=
  { _gsg := 7
    _bins := [some [scene_object 1 plain_state], none,
      some [scene_object 4 (scene_state_in_bin TransparencyMode.M_dual "fixed")],
      some [scene_object 6 plain_state]] }

/-- The scenario with every state resolving to bin 0. -/
def scene_env_one_bin : Env (List CullableObject) :=
  { scene_env with get_bin_index := fun _ => 0 }

/-- The scenario in which the states that blend ask for bin 1 and every
other state asks for the unregistered bin 99. -/
def scene_env_no_opaque : Env (List CullableObject) :=
  { scene_env with
    get_bin_index := fun s =>
      if s.get_transparency = some ⟨TransparencyMode.M_alpha⟩ then 1 else 99 }

/-! ## Lemmas on the bin vector -/

theorem bin_at_eq (bins : List (Option Bin)) (i : Nat) :
    bin_at bins i = (bins[i]?).getD none := by
  simp [bin_at, List.getD_eq_getElem?_getD]

theorem bin_at_of_length_le (bins : List (Option Bin)) (i : Nat) (h : bins.length ≤ i) :
    bin_at bins i = none := by
  simp [bin_at_eq, List.getElem?_eq_none h]

theorem push_null_bins_fuel (bin_index : Int) :
    ∀ (fuel : Nat) (bins : List (Option Bin)),
      fuel = (bin_index + 1 - (bins.length : Int)).toNat →
      push_null_bins bin_index fuel bins = bins ++ List.replicate fuel none := by
  intro fuel
  induction fuel with
  | zero => intro bins _; simp [push_null_bins]
  | succ n ih =>
    intro bins h
    have hge : bin_index ≥ (bins.length : Int) := by omega
    have hn : n = (bin_index + 1 - ((bins ++ [none]).length : Int)).toNat := by
      simp only [List.length_append, List.length_singleton]
      push_cast
      omega
    simp only [push_null_bins, hge, if_true]
    rw [ih _ hn, List.append_assoc, List.replicate_succ]
    rfl

theorem length_store_bin (bins : List (Option Bin)) (i : Nat) (b : Bin) :
    (store_bin bins i b).length = max bins.length (i + 1) := by
  simp only [store_bin, List.length_set, List.length_append, List.length_replicate]
  omega

theorem bin_at_store_bin (bins : List (Option Bin)) (i j : Nat) (b : Bin) :
    bin_at (store_bin bins i b) j = if j = i then some b else bin_at bins j := by
  simp only [bin_at_eq, store_bin, List.getElem?_set, List.length_append,
    List.length_replicate, List.getElem?_append, List.getElem?_replicate]
  by_cases hji : j = i
  · subst hji
    have : j < bins.length + (j + 1 - bins.length) := by omega
    simp [this]
  · have hij : ¬ i = j := fun h => hji h.symm
    simp only [hij, hji, if_false]
    by_cases hlt : j < bins.length
    · simp [hlt]
    · simp only [hlt, if_false]
      rw [List.getElem?_eq_none (Nat.le_of_not_lt hlt)]
      split <;> rfl

theorem store_bin_store_bin (bins : List (Option Bin)) (i : Nat) (b c : Bin) :
    (store_bin bins i b).set i (some c) = store_bin bins i c := by
  simp [store_bin, List.set_set]

theorem store_bin_of_cached (bins : List (Option Bin)) (i : Nat) (b : Bin)
    (h : bin_at bins i = some b) : store_bin bins i b = bins := by
  have hlt : i < bins.length := by
    by_contra hge
    rw [bin_at_of_length_le bins i (Nat.le_of_not_lt hge)] at h
    exact Option.noConfusion h
  have hz : i + 1 - bins.length = 0 := by omega
  apply List.ext_getElem?
  intro j
  simp only [store_bin, hz, List.replicate_zero, List.append_nil, List.getElem?_set]
  by_cases hij : i = j
  · subst hij
    rw [bin_at_eq] at h
    simp only [hlt, if_true]
    cases hg : bins[i]? with
    | none => simp [List.getElem?_eq_none_iff] at hg; omega
    | some v => rw [hg] at h; simp at h; rw [h]
  · simp [hij]

/-! ## Lemmas on bin resolution -/

theorem make_new_bin_eq (env : Env Bin) (self : CullResult Bin) (bin_index : Int) :
    self.make_new_bin env bin_index =
      match env.manager_make_new_bin bin_index self._gsg with
      | some bin =>
        if 0 ≤ bin_index then
          (some bin, { self with _bins := store_bin self._bins bin_index.toNat bin })
        else (none, self)
      | none => (none, self) := by
  unfold CullResult.make_new_bin
  cases hm : env.manager_make_new_bin bin_index self._gsg with
  | none => rfl
  | some bin =>
    simp only []
    rw [push_null_bins_fuel bin_index _ self._bins rfl]
    by_cases h0 : 0 ≤ bin_index
    · have hk : (bin_index + 1 - (self._bins.length : Int)).toNat
          = bin_index.toNat + 1 - self._bins.length := by omega
      have hlt : bin_index <
          ((self._bins ++ List.replicate (bin_index + 1 - (self._bins.length : Int)).toNat
            (none : Option Bin)).length : Int) := by
        simp only [List.length_append, List.length_replicate]
        push_cast
        omega
      have hc : bin_index ≥ 0 ∧ bin_index <
          ((self._bins ++ List.replicate (bin_index + 1 - (self._bins.length : Int)).toNat
            (none : Option Bin)).length : Int) := ⟨h0, hlt⟩
      rw [if_pos hc, if_pos h0, store_bin, hk]
    · have hk : (bin_index + 1 - (self._bins.length : Int)).toNat = 0 := by omega
      have hc : ¬ (bin_index ≥ 0 ∧ bin_index <
          ((self._bins ++ List.replicate (bin_index + 1 - (self._bins.length : Int)).toNat
            (none : Option Bin)).length : Int)) := fun h => h0 h.1
      rw [if_neg hc, if_neg h0, hk]
      simp

theorem get_bin_eq (env : Env Bin) (self : CullResult Bin) (bin_index : Int) :
    self.get_bin env bin_index =
      match self.resolve env bin_index with
      | some bin => (some bin, { self with _bins := store_bin self._bins bin_index.toNat bin })
      | none => (none, self) := by
  unfold CullResult.get_bin CullResult.resolve
  by_cases h0 : 0 ≤ bin_index
  · by_cases hlt : bin_index < (self._bins.length : Int)
    · rw [if_pos (show bin_index ≥ 0 ∧ bin_index < (self._bins.length : Int) from ⟨h0, hlt⟩),
        if_pos h0]
      cases hb : bin_at self._bins bin_index.toNat with
      | some bin => simp only []; rw [store_bin_of_cached _ _ _ hb]
      | none =>
        simp only []
        rw [make_new_bin_eq]
        cases env.manager_make_new_bin bin_index self._gsg <;> simp [h0]
    · rw [if_neg (show ¬ (bin_index ≥ 0 ∧ bin_index < (self._bins.length : Int)) from
        fun h => hlt h.2), if_pos h0]
      have hb : bin_at self._bins bin_index.toNat = none :=
        bin_at_of_length_le _ _ (by omega)
      rw [hb, make_new_bin_eq]
      cases env.manager_make_new_bin bin_index self._gsg <;> simp [h0]
  · rw [if_neg (show ¬ (bin_index ≥ 0 ∧ bin_index < (self._bins.length : Int)) from
      fun h => h0 h.1), if_neg h0, make_new_bin_eq]
    cases env.manager_make_new_bin bin_index self._gsg <;> simp [h0]

theorem get_bin_fst (env : Env Bin) (self : CullResult Bin) (bin_index : Int) :
    (self.get_bin env bin_index).1 = self.resolve env bin_index := by
  rw [get_bin_eq]
  cases self.resolve env bin_index <;> rfl

theorem resolve_nonneg (env : Env Bin) (self : CullResult Bin) (bin_index : Int) (b : Bin)
    (h : self.resolve env bin_index = some b) : 0 ≤ bin_index := by
  unfold CullResult.resolve at h
  by_contra hneg
  rw [if_neg hneg] at h
  exact Option.noConfusion h

theorem add_object_final_eq (env : Env Bin) (self : CullResult Bin)
    (object : CullableObject) (state : RenderState) (calls : List BinCall) :
    self.add_object_final env object state calls =
      match self.resolve env (env.get_bin_index state) with
      | some bin =>
        ⟨Outcome.returned,
          { self with
            _bins := store_bin self._bins (env.get_bin_index state).toNat
                      (env.bin_add_object bin object) },
          calls ++ [BinCall.add_object (env.get_bin_index state) object]⟩
      | none => ⟨Outcome.assertion_failed, self, calls⟩ := by
  unfold CullResult.add_object_final
  simp only []
  rw [get_bin_eq]
  cases self.resolve env (env.get_bin_index state) with
  | none => rfl
  | some bin =>
    simp only [CullResult.bin_add_object, store_bin_store_bin]

theorem resolve_store_bin (env : Env Bin) (self : CullResult Bin) (i j : Int) (b : Bin)
    (hi : 0 ≤ i) :
    CullResult.resolve env { self with _bins := store_bin self._bins i.toNat b } j =
      if j = i then some b else self.resolve env j := by
  unfold CullResult.resolve
  by_cases hj : 0 ≤ j
  · simp only [if_pos hj, bin_at_store_bin]
    by_cases hji : j = i
    · subst hji; simp
    · have hne : ¬ j.toNat = i.toNat := by omega
      simp [hji, hne]
  · have hji : ¬ j = i := by omega
    simp [hj, hji]

/-! ## Lemmas on composition with a maximum-priority state -/

theorem compose_slot_max {α : Type} (a : Option (Attribute α)) (x : α) :
    compose_slot a (some ⟨x, Priority.max⟩) = some ⟨x, Priority.max⟩ := by
  cases a with
  | none => rfl
  | some e =>
    have h : ¬ (Priority.max.val < e.override.val) := not_lt.mpr e.override.le_max
    simp only [compose_slot, h, if_false]

theorem compose_make_alpha_test (s : RenderState) (a : AlphaTestAttrib) (t : TransparencyAttrib) :
    (s.compose (RenderState.make a t Priority.max)).get_alpha_test = some a := by
  simp [RenderState.compose, RenderState.make, RenderState.get_alpha_test, compose_slot_max]

theorem compose_make_transparency (s : RenderState) (a : AlphaTestAttrib)
    (t : TransparencyAttrib) :
    (s.compose (RenderState.make a t Priority.max)).get_transparency = some t := by
  simp [RenderState.compose, RenderState.make, RenderState.get_transparency, compose_slot_max]

/-! ## Lemmas on the routing of one object -/

theorem add_object_final_resolved (env : Env Bin) (self : CullResult Bin)
    (object : CullableObject) (state : RenderState) (calls : List BinCall) (b : Bin)
    (h : (self.get_bin env (env.get_bin_index state)).1 = some b) :
    self.add_object_final env object state calls =
      ⟨Outcome.returned,
        { self with
          _bins := store_bin self._bins (env.get_bin_index state).toNat
                    (env.bin_add_object b object) },
        calls ++ [BinCall.add_object (env.get_bin_index state) object]⟩ := by
  rw [get_bin_fst] at h
  rw [add_object_final_eq, h]

theorem add_object_final_unresolved (env : Env Bin) (self : CullResult Bin)
    (object : CullableObject) (state : RenderState) (calls : List BinCall)
    (h : (self.get_bin env (env.get_bin_index state)).1 = none) :
    self.add_object_final env object state calls =
      ⟨Outcome.assertion_failed, self, calls⟩ := by
  rw [get_bin_fst] at h
  rw [add_object_final_eq, h]

theorem add_object_of_binary (env : Env Bin) (self : CullResult Bin)
    (object : CullableObject) (state : RenderState)
    (hstate : object._state = some state)
    (hmode : state.get_transparency = some ⟨TransparencyMode.M_binary⟩) :
    self.add_object env object =
      self.add_object_final env
        { object with _state := some (state.compose get_binary_state) }
        (state.compose get_binary_state) [] := by
  unfold CullResult.add_object
  simp only [hstate, hmode]

theorem add_object_of_dual_in_bin (env : Env Bin) (self : CullResult Bin)
    (object : CullableObject) (state : RenderState) (attrib : CullBinAttrib)
    (hstate : object._state = some state)
    (hmode : state.get_transparency = some ⟨TransparencyMode.M_dual⟩)
    (hbin : state.get_bin = some attrib) (hname : attrib.bin_name.isEmpty = false) :
    self.add_object env object = self.add_object_final env object state [] := by
  unfold CullResult.add_object
  simp only [hstate, hmode]
  unfold CullResult.add_object_dual
  have hcond : ¬ (state.get_bin = none ∨
      (state.get_bin.map (fun b => b.bin_name.isEmpty)) = some true) := by
    rw [hbin]
    simp [hname]
  simp only [if_neg hcond]

theorem add_object_of_plain (env : Env Bin) (self : CullResult Bin)
    (object : CullableObject) (state : RenderState)
    (hstate : object._state = some state)
    (hmode : state.get_transparency = none ∨
      ∃ t, state.get_transparency = some t ∧ t.mode ≠ TransparencyMode.M_binary ∧
        t.mode ≠ TransparencyMode.M_dual) :
    self.add_object env object = self.add_object_final env object state [] := by
  unfold CullResult.add_object
  rcases hmode with h | ⟨t, h, hb, hd⟩
  · simp only [hstate, h]
  · simp only [hstate, h]

theorem resolve_cases (env : Env Bin) (self : CullResult Bin) (bin_index : Int) (b : Bin)
    (h : self.resolve env bin_index = some b) :
    bin_at self._bins bin_index.toNat = some b ∨
      (bin_at self._bins bin_index.toNat = none ∧
        env.manager_make_new_bin bin_index self._gsg = some b) := by
  have h0 := resolve_nonneg env self bin_index b h
  unfold CullResult.resolve at h
  rw [if_pos h0] at h
  cases hb : bin_at self._bins bin_index.toNat with
  | none => rw [hb] at h; exact Or.inr ⟨rfl, h⟩
  | some c => rw [hb] at h; exact Or.inl h

theorem add_object_final_routes (env : Env Bin) (self : CullResult Bin)
    (object : CullableObject) (state : RenderState) (b : Bin)
    (h : (self.get_bin env (env.get_bin_index state)).1 = some b) :
    (self.add_object_final env object state []).outcome = Outcome.returned ∧
    (self.add_object_final env object state []).calls =
      [BinCall.add_object (env.get_bin_index state) object] ∧
    0 ≤ env.get_bin_index state ∧
    bin_at (self.add_object_final env object state []).result._bins
      (env.get_bin_index state).toNat = some (env.bin_add_object b object) ∧
    (∀ j : Nat, (j : Int) ≠ env.get_bin_index state →
      bin_at (self.add_object_final env object state []).result._bins j =
        bin_at self._bins j) := by
  rw [add_object_final_resolved env self object state [] b h]
  rw [get_bin_fst] at h
  have h0 := resolve_nonneg env self _ b h
  refine ⟨rfl, rfl, h0, ?_, ?_⟩
  · dsimp only
    rw [bin_at_store_bin, if_pos rfl]
  · intro j hj
    have hne : ¬ j = (env.get_bin_index state).toNat := by omega
    dsimp only
    rw [bin_at_store_bin, if_neg hne]

/-! ## Lemmas on the draw loop -/

theorem bin_at_set (bins : List (Option Bin)) (i j : Nat) (x : Option Bin)
    (hi : i < bins.length) :
    bin_at (bins.set i x) j = if j = i then x else bin_at bins j := by
  simp only [bin_at_eq, List.getElem?_set]
  by_cases hji : j = i
  · subst hji; simp [hi]
  · have hij : ¬ i = j := fun h => hji h.symm
    simp [hij, hji]

theorem populated_set (bins : List (Option Bin)) (i : Nat) (b c : Bin)
    (hb : bin_at bins i = some b) (k : Int) :
    populated (bins.set i (some c)) k = populated bins k := by
  have hi : i < bins.length := by
    by_contra hge
    rw [bin_at_of_length_le bins i (Nat.le_of_not_lt hge)] at hb
    exact Option.noConfusion hb
  unfold populated
  rw [List.length_set, bin_at_set bins i k.toNat (some c) hi]
  by_cases hk : k.toNat = i
  · rw [if_pos hk, hk, hb]; rfl
  · rw [if_neg hk]

theorem draw_loop_neg (env : Env Bin) (self : CullResult Bin) (i : Int) (rest : List Int)
    (hi : i < 0) :
    draw_loop env (i :: rest) self = ⟨Outcome.assertion_failed, self, []⟩ := by
  have h : ¬ i ≥ 0 := by omega
  simp only [draw_loop, h, if_false]

theorem draw_loop_skip (env : Env Bin) (self : CullResult Bin) (i : Int) (rest : List Int)
    (hi : 0 ≤ i) (hp : populated self._bins i = false) :
    draw_loop env (i :: rest) self = draw_loop env rest self := by
  have h : i ≥ 0 := hi
  simp only [draw_loop, h, if_true]
  by_cases hlt : i < (self._bins.length : Int)
  · rw [if_pos hlt]
    cases hb : bin_at self._bins i.toNat with
    | none => rfl
    | some b =>
      exfalso
      simp [populated, hi, hlt, hb] at hp
  · rw [if_neg hlt]

theorem draw_loop_visit (env : Env Bin) (self : CullResult Bin) (i : Int) (rest : List Int)
    (hp : populated self._bins i = true) :
    ∃ b, bin_at self._bins i.toNat = some b ∧
      draw_loop env (i :: rest) self =
        ⟨(draw_loop env rest
            { self with _bins := self._bins.set i.toNat (some (env.bin_draw b)) }).outcome,
          (draw_loop env rest
            { self with _bins := self._bins.set i.toNat (some (env.bin_draw b)) }).result,
          BinCall.draw i :: (draw_loop env rest
            { self with _bins := self._bins.set i.toNat (some (env.bin_draw b)) }).calls⟩ := by
  simp only [populated, Bool.and_eq_true, decide_eq_true_eq] at hp
  obtain ⟨⟨h0, hlt⟩, hsome⟩ := hp
  cases hb : bin_at self._bins i.toNat with
  | none => rw [hb] at hsome; exact absurd hsome (by simp)
  | some b =>
    refine ⟨b, rfl, ?_⟩
    have h : i ≥ 0 := h0
    simp only [draw_loop, h, if_true, hlt, hb]

theorem draw_loop_nonneg (env : Env Bin) :
    ∀ (order : List Int) (self : CullResult Bin), (∀ i ∈ order, 0 ≤ i) →
      (draw_loop env order self).outcome = Outcome.returned ∧
      (draw_loop env order self).calls =
        (order.filter (populated self._bins)).map BinCall.draw := by
  intro order
  induction order with
  | nil => intro self _; exact ⟨rfl, rfl⟩
  | cons i rest ih =>
    intro self h
    have hi : 0 ≤ i := h i (List.mem_cons_self i rest)
    have hrest : ∀ k ∈ rest, 0 ≤ k := fun k hk => h k (List.mem_cons_of_mem i hk)
    cases hp : populated self._bins i with
    | false =>
      rw [draw_loop_skip env self i rest hi hp, List.filter_cons_of_neg (by simp [hp])]
      exact ih self hrest
    | true =>
      obtain ⟨b, hb, hrun⟩ := draw_loop_visit env self i rest hp
      have ih2 := ih { self with _bins := self._bins.set i.toNat (some (env.bin_draw b)) } hrest
      have hpop : populated (self._bins.set i.toNat (some (env.bin_draw b))) =
          populated self._bins := funext (populated_set self._bins i.toNat b _ hb)
      rw [hrun, List.filter_cons_of_pos (by simp [hp])]
      dsimp only at ih2 ⊢
      rw [hpop] at ih2
      exact ⟨ih2.1, by rw [ih2.2, List.map_cons]⟩

theorem draw_loop_frame (env : Env Bin) :
    ∀ (order : List Int) (self : CullResult Bin),
      (draw_loop env order self).result._bins.length = self._bins.length ∧
      (∀ j : Nat, (j : Int) ∉ order →
        bin_at (draw_loop env order self).result._bins j = bin_at self._bins j) := by
  intro order
  induction order with
  | nil => intro self; exact ⟨rfl, fun _ _ => rfl⟩
  | cons i rest ih =>
    intro self
    by_cases hi : 0 ≤ i
    · cases hp : populated self._bins i with
      | false =>
        rw [draw_loop_skip env self i rest hi hp]
        exact ⟨(ih self).1, fun j hj =>
          (ih self).2 j (fun hm => hj (List.mem_cons_of_mem i hm))⟩
      | true =>
        obtain ⟨b, hb, hrun⟩ := draw_loop_visit env self i rest hp
        have ih2 := ih { self with _bins := self._bins.set i.toNat (some (env.bin_draw b)) }
        have hlt : i.toNat < self._bins.length := by
          by_contra hge
          rw [bin_at_of_length_le _ _ (Nat.le_of_not_lt hge)] at hb
          exact Option.noConfusion hb
        rw [hrun]
        dsimp only at ih2 ⊢
        refine ⟨by rw [ih2.1, List.length_set], fun j hj => ?_⟩
        have hji : ¬ j = i.toNat := by
          intro hji
          apply hj
          have : (j : Int) = i := by omega
          rw [this]
          exact List.mem_cons_self i rest
        rw [ih2.2 j (fun hm => hj (List.mem_cons_of_mem i hm)),
          bin_at_set _ _ _ _ hlt, if_neg hji]
    · rw [draw_loop_neg env self i rest (by omega)]
      exact ⟨rfl, fun _ _ => rfl⟩

theorem draw_loop_past_end (env : Env Bin) (i : Int) (post : List Int) :
    ∀ (pre : List Int) (self : CullResult Bin), (self._bins.length : Int) ≤ i →
      draw_loop env (pre ++ i :: post) self = draw_loop env (pre ++ post) self := by
  intro pre
  induction pre with
  | nil =>
    intro self hi
    have hp : populated self._bins i = false := by
      have : ¬ (0 ≤ i ∧ i < (self._bins.length : Int)) := fun h => by omega
      simp [populated, this]
    exact draw_loop_skip env self i post (by omega) hp
  | cons k pre ih =>
    intro self hi
    rw [List.cons_append, List.cons_append]
    by_cases hk : 0 ≤ k
    · cases hp : populated self._bins k with
      | false =>
        rw [draw_loop_skip env self k _ hk hp, draw_loop_skip env self k _ hk hp]
        exact ih self hi
      | true =>
        obtain ⟨b, hb, hrun⟩ := draw_loop_visit env self k (pre ++ i :: post) hp
        obtain ⟨c, hc, hrun2⟩ := draw_loop_visit env self k (pre ++ post) hp
        have hbc : b = c := Option.some.inj (hb.symm.trans hc)
        subst hbc
        rw [hrun, hrun2, ih _ (by simpa [List.length_set] using hi)]
    · rw [draw_loop_neg env self k _ (by omega), draw_loop_neg env self k _ (by omega)]

theorem draw_loop_at_negative (env : Env Bin) (i : Int) (post : List Int) (hi : i < 0) :
    ∀ (pre : List Int) (self : CullResult Bin), (∀ k ∈ pre, 0 ≤ k) →
      (draw_loop env (pre ++ i :: post) self).outcome = Outcome.assertion_failed ∧
      (draw_loop env (pre ++ i :: post) self).calls =
        (pre.filter (populated self._bins)).map BinCall.draw := by
  intro pre
  induction pre with
  | nil =>
    intro self _
    rw [List.nil_append, draw_loop_neg env self i post hi]
    exact ⟨rfl, rfl⟩
  | cons k pre ih =>
    intro self h
    have hk : 0 ≤ k := h k (List.mem_cons_self k pre)
    have hrest : ∀ m ∈ pre, 0 ≤ m := fun m hm => h m (List.mem_cons_of_mem k hm)
    rw [List.cons_append]
    cases hp : populated self._bins k with
    | false =>
      rw [draw_loop_skip env self k _ hk hp, List.filter_cons_of_neg (by simp [hp])]
      exact ih self hrest
    | true =>
      obtain ⟨b, hb, hrun⟩ := draw_loop_visit env self k (pre ++ i :: post) hp
      have ih2 := ih { self with _bins := self._bins.set k.toNat (some (env.bin_draw b)) } hrest
      have hpop : populated (self._bins.set k.toNat (some (env.bin_draw b))) =
          populated self._bins := funext (populated_set self._bins k.toNat b _ hb)
      rw [hrun, List.filter_cons_of_pos (by simp [hp])]
      dsimp only at ih2 ⊢
      rw [hpop] at ih2
      exact ⟨ih2.1, by rw [ih2.2, List.map_cons]⟩

/-! ## Lemmas on the loops of finish_cull and make_next -/

theorem bin_at_cons_succ (x : Option Bin) (rest : List (Option Bin)) (j : Nat) :
    bin_at (x :: rest) (j + 1) = bin_at rest j := by
  simp [bin_at]

theorem bin_at_map (f : Option Bin → Option Bin) (hf : f none = none)
    (bins : List (Option Bin)) (j : Nat) :
    bin_at (bins.map f) j = f (bin_at bins j) := by
  simp only [bin_at_eq, List.getElem?_map]
  cases bins[j]? with
  | none => simp [hf]
  | some v => simp

theorem finish_cull_loop_spec (env : Env Bin) :
    ∀ (bins : List (Option Bin)) (k : Nat),
      (finish_cull_loop env k bins).1 = bins.map (fun s => s.map env.bin_finish_cull) ∧
      (finish_cull_loop env k bins).2 =
        ((List.range bins.length).filter (fun j => (bin_at bins j).isSome)).map
          (fun j => BinCall.finish_cull (k + j)) := by
  intro bins
  induction bins with
  | nil => intro k; exact ⟨rfl, rfl⟩
  | cons x rest ih =>
    intro k
    have hshift : (fun j => (bin_at (x :: rest) j).isSome) ∘ Nat.succ =
        fun j => (bin_at rest j).isSome := by
      funext j
      simp only [Function.comp, Nat.succ_eq_add_one, bin_at_cons_succ]
    have hidx : (fun j => BinCall.finish_cull (k + j)) ∘ Nat.succ =
        fun j => BinCall.finish_cull (k + 1 + j) := by
      funext j
      simp only [Function.comp, Nat.succ_eq_add_one]
      congr 1
      omega
    have hr := ih (k + 1)
    rw [List.length_cons, List.range_succ_eq_map, List.filter_cons, List.filter_map, hshift]
    cases x with
    | none =>
      have h0 : ¬ ((bin_at ((none : Option Bin) :: rest) 0).isSome = true) := by
        simp [bin_at]
      rw [if_neg h0]
      simp only [finish_cull_loop, List.map_cons, List.map_map, hidx, Option.map_none']
      exact ⟨by rw [hr.1], hr.2⟩
    | some b =>
      have h0 : (bin_at (some b :: rest) 0).isSome = true := by simp [bin_at]
      rw [if_pos h0]
      simp only [finish_cull_loop, List.map_cons, List.map_map, hidx, Option.map_some',
        Nat.add_zero]
      exact ⟨by rw [hr.1], by rw [hr.2]⟩

/-! ## Lemmas on the two shapes of add_object -/

theorem object_with_state (object : CullableObject) (state : RenderState)
    (h : object._state = some state) : { object with _state := some state } = object := by
  cases object
  simp_all

theorem add_object_unsplit (env : Env Bin) (self : CullResult Bin)
    (object : CullableObject) (state : RenderState)
    (hstate : object._state = some state) (hs : splits state = false) :
    self.add_object env object =
      self.add_object_final env { object with _state := some (final_state state) }
        (final_state state) [] := by
  unfold CullResult.add_object final_state
  simp only [hstate]
  cases htr : state.get_transparency with
  | none => simp only []; rw [object_with_state object state hstate]
  | some t =>
    obtain ⟨m⟩ := t
    cases m with
    | M_binary => rfl
    | M_dual =>
      have hcond : ¬ (state.get_bin = none ∨
          (state.get_bin.map (fun b => b.bin_name.isEmpty)) = some true) := by
        intro hc
        have hps : splits state = true := by
          simp only [splits, decide_eq_true_eq]
          exact ⟨htr, hc⟩
        rw [hps] at hs
        exact Bool.noConfusion hs
      simp only [CullResult.add_object_dual, if_neg hcond]
      rw [object_with_state object state hstate]
    | M_none => simp only []; rw [object_with_state object state hstate]
    | M_alpha => simp only []; rw [object_with_state object state hstate]
    | M_multisample => simp only []; rw [object_with_state object state hstate]
    | M_other tag => simp only []; rw [object_with_state object state hstate]

theorem add_object_split (env : Env Bin) (self : CullResult Bin)
    (object : CullableObject) (state : RenderState)
    (hstate : object._state = some state) (hs : splits state = true) :
    final_state state = state.compose get_dual_opaque_state ∧
    self.add_object env object =
      match self.resolve env (env.get_bin_index (state.compose get_dual_transparent_state)) with
      | none => ⟨Outcome.assertion_failed, self, []⟩
      | some bt =>
        CullResult.add_object_final env
          { self with
            _bins := store_bin self._bins
              (env.get_bin_index (state.compose get_dual_transparent_state)).toNat
              (env.bin_add_object bt
                { object with _state := some (state.compose get_dual_transparent_state) }) }
          { object with _state := some (state.compose get_dual_opaque_state) }
          (state.compose get_dual_opaque_state)
          [BinCall.add_object (env.get_bin_index (state.compose get_dual_transparent_state))
            { object with _state := some (state.compose get_dual_transparent_state) }] := by
  simp only [splits, decide_eq_true_eq] at hs
  obtain ⟨hmode, hcond⟩ := hs
  constructor
  · unfold final_state
    simp only [hmode, if_pos hcond]
  · unfold CullResult.add_object
    simp only [hstate, hmode]
    unfold CullResult.add_object_dual
    simp only [if_pos hcond]
    rw [get_bin_eq]
    cases self.resolve env (env.get_bin_index (state.compose get_dual_transparent_state)) with
    | none => rfl
    | some bt => simp only [CullResult.bin_add_object, store_bin_store_bin]

theorem add_object_final_outcome (env : Env Bin) (self : CullResult Bin)
    (object : CullableObject) (state : RenderState) (calls : List BinCall) :
    ((self.add_object_final env object state calls).outcome = Outcome.assertion_failed ↔
      self.resolve env (env.get_bin_index state) = none) ∧
    ((self.add_object_final env object state calls).outcome = Outcome.returned →
      BinCall.add_object (env.get_bin_index state) object ∈
        (self.add_object_final env object state calls).calls) := by
  rw [add_object_final_eq]
  cases self.resolve env (env.get_bin_index state) with
  | none => simp
  | some b => simp

theorem resolve_of_not_populated (env : Env Bin) (self : CullResult Bin) (i : Int)
    (hp : populated self._bins i = false)
    (hm : env.manager_make_new_bin i self._gsg = none) :
    self.resolve env i = none := by
  unfold CullResult.resolve
  by_cases h0 : 0 ≤ i
  · rw [if_pos h0]
    have hb : bin_at self._bins i.toNat = none := by
      by_cases hlt : i < (self._bins.length : Int)
      · cases hb : bin_at self._bins i.toNat with
        | none => rfl
        | some b => simp [populated, h0, hlt, hb] at hp
      · exact bin_at_of_length_le _ _ (by omega)
    rw [hb]
    exact hm
  · rw [if_neg h0]

/-! ## Lemmas on reachable results -/

theorem add_object_final_slots (env : Env Bin) (self : CullResult Bin)
    (object : CullableObject) (state : RenderState) (calls : List BinCall) :
    (self.add_object_final env object state calls).result._gsg = self._gsg ∧
    ∀ j : Nat, (bin_at (self.add_object_final env object state calls).result._bins j).isSome →
      (bin_at self._bins j).isSome ∨ (env.manager_make_new_bin (j : Int) self._gsg).isSome := by
  rw [add_object_final_eq]
  cases hr : self.resolve env (env.get_bin_index state) with
  | none => exact ⟨rfl, fun j h => Or.inl h⟩
  | some b =>
    refine ⟨rfl, fun j h => ?_⟩
    have h0 := resolve_nonneg env self _ b hr
    dsimp only at h
    rw [bin_at_store_bin] at h
    by_cases hj : j = (env.get_bin_index state).toNat
    · have hji : (j : Int) = env.get_bin_index state := by omega
      rcases resolve_cases env self _ b hr with hc | ⟨_, hm⟩
      · left; rw [hj, hc]; rfl
      · right; rw [hji, hm]; rfl
    · rw [if_neg hj] at h
      exact Or.inl h

theorem add_object_slots (env : Env Bin) (self : CullResult Bin) (object : CullableObject) :
    (self.add_object env object).result._gsg = self._gsg ∧
    ∀ j : Nat, (bin_at (self.add_object env object).result._bins j).isSome →
      (bin_at self._bins j).isSome ∨ (env.manager_make_new_bin (j : Int) self._gsg).isSome := by
  cases hstate : object._state with
  | none =>
    have hrun : self.add_object env object = ⟨Outcome.assertion_failed, self, []⟩ := by
      unfold CullResult.add_object
      simp only [hstate]
    rw [hrun]
    exact ⟨rfl, fun j h => Or.inl h⟩
  | some state =>
    cases hs : splits state with
    | false =>
      rw [add_object_unsplit env self object state hstate hs]
      exact add_object_final_slots env self _ _ _
    | true =>
      obtain ⟨_, hrun⟩ := add_object_split env self object state hstate hs
      rw [hrun]
      cases ht : self.resolve env
          (env.get_bin_index (state.compose get_dual_transparent_state)) with
      | none => exact ⟨rfl, fun j h => Or.inl h⟩
      | some bt =>
        have ht0 := resolve_nonneg env self _ bt ht
        dsimp only
        refine ⟨(add_object_final_slots env _ _ _ _).1, fun j h => ?_⟩
        rcases (add_object_final_slots env _ _ _ _).2 j h with h1 | h1
        · dsimp only at h1
          rw [bin_at_store_bin] at h1
          by_cases hj : j = (env.get_bin_index
              (state.compose get_dual_transparent_state)).toNat
          · have hji : (j : Int) =
                env.get_bin_index (state.compose get_dual_transparent_state) := by omega
            rcases resolve_cases env self _ bt ht with hc | ⟨_, hm⟩
            · left; rw [hj, hc]; rfl
            · right; rw [hji, hm]; rfl
          · rw [if_neg hj] at h1
            exact Or.inl h1
        · exact Or.inr h1

theorem draw_loop_slots (env : Env Bin) :
    ∀ (order : List Int) (self : CullResult Bin),
      (draw_loop env order self).result._gsg = self._gsg ∧
      ∀ j : Nat, (bin_at (draw_loop env order self).result._bins j).isSome =
        (bin_at self._bins j).isSome := by
  intro order
  induction order with
  | nil => intro self; exact ⟨rfl, fun _ => rfl⟩
  | cons i rest ih =>
    intro self
    by_cases hi : 0 ≤ i
    · cases hp : populated self._bins i with
      | false =>
        rw [draw_loop_skip env self i rest hi hp]
        exact ih self
      | true =>
        obtain ⟨b, hb, hrun⟩ := draw_loop_visit env self i rest hp
        have ih2 := ih { self with _bins := self._bins.set i.toNat (some (env.bin_draw b)) }
        have hlt : i.toNat < self._bins.length := by
          by_contra hge
          rw [bin_at_of_length_le _ _ (Nat.le_of_not_lt hge)] at hb
          exact Option.noConfusion hb
        rw [hrun]
        dsimp only at ih2 ⊢
        refine ⟨ih2.1, fun j => ?_⟩
        rw [ih2.2 j, bin_at_set _ _ _ _ hlt]
        by_cases hj : j = i.toNat
        · rw [if_pos hj, hj, hb]; rfl
        · rw [if_neg hj]
    · rw [draw_loop_neg env self i rest (by omega)]
      exact ⟨rfl, fun _ => rfl⟩

theorem reachable_registered (env : Env Bin) (self : CullResult Bin)
    (h : Reachable env self) :
    ∀ j : Nat, (bin_at self._bins j).isSome →
      (env.manager_make_new_bin (j : Int) self._gsg).isSome := by
  induction h with
  | empty gsg => intro j hj; simp [bin_at] at hj
  | add_object r object _ ih =>
    intro j hj
    rw [(add_object_slots env r object).1]
    rcases (add_object_slots env r object).2 j hj with h1 | h1
    · exact ih j h1
    · exact h1
  | finish_cull r _ ih =>
    intro j hj
    have hs := finish_cull_loop_spec env r._bins 0
    simp only [CullResult.finish_cull] at hj ⊢
    rw [hs.1, bin_at_map _ rfl] at hj
    apply ih j
    cases hb : bin_at r._bins j with
    | none => rw [hb] at hj; exact hj
    | some b => rfl
  | draw r _ ih =>
    intro j hj
    have hs := draw_loop_slots env (manager_order env) r
    unfold CullResult.draw at hj ⊢
    rw [hs.1]
    rw [hs.2 j] at hj
    exact ih j hj
  | make_next r _ ih =>
    intro j hj
    simp only [CullResult.make_next] at hj ⊢
    rw [bin_at_map _ rfl] at hj
    apply ih j
    cases hb : bin_at r._bins j with
    | none => rw [hb] at hj; exact hj
    | some b => rfl

theorem not_populated_of_unregistered (env : Env Bin) (self : CullResult Bin)
    (h : Reachable env self) (i : Int)
    (hm : env.manager_make_new_bin i self._gsg = none) :
    populated self._bins i = false := by
  cases hp : populated self._bins i with
  | false => rfl
  | true =>
    exfalso
    simp only [populated, Bool.and_eq_true, decide_eq_true_eq] at hp
    have hreg := reachable_registered env self h i.toNat hp.2
    have hi : ((i.toNat : Nat) : Int) = i := by omega
    rw [hi, hm] at hreg
    exact Bool.noConfusion hreg

/-! ## Lemmas on what a call of add_object does to a slot -/

theorem add_object_final_calls (env : Env Bin) (self : CullResult Bin)
    (object : CullableObject) (state : RenderState) (calls : List BinCall) :
    ∀ c ∈ calls, c ∈ (self.add_object_final env object state calls).calls := by
  intro c hc
  rw [add_object_final_eq]
  cases self.resolve env (env.get_bin_index state) with
  | none => exact hc
  | some b => exact List.mem_append_left _ hc

theorem add_object_final_slot_cases (env : Env Bin) (self : CullResult Bin)
    (object : CullableObject) (state : RenderState) (calls : List BinCall) (j : Nat) :
    bin_at (self.add_object_final env object state calls).result._bins j = bin_at self._bins j ∨
    ∃ b, bin_at (self.add_object_final env object state calls).result._bins j =
        some (env.bin_add_object b object) ∧
      BinCall.add_object (j : Int) object ∈
        (self.add_object_final env object state calls).calls := by
  rw [add_object_final_eq]
  cases hr : self.resolve env (env.get_bin_index state) with
  | none => exact Or.inl rfl
  | some b =>
    have h0 := resolve_nonneg env self _ b hr
    dsimp only
    rw [bin_at_store_bin]
    by_cases hj : j = (env.get_bin_index state).toNat
    · have hji : (j : Int) = env.get_bin_index state := by omega
      right
      refine ⟨b, by rw [if_pos hj], ?_⟩
      rw [hji]
      exact List.mem_append_right _ (List.mem_singleton_self _)
    · left
      rw [if_neg hj]

theorem add_object_slot_cases (env : Env Bin) (self : CullResult Bin)
    (object : CullableObject) (j : Nat) :
    bin_at (self.add_object env object).result._bins j = bin_at self._bins j ∨
    ∃ b o, bin_at (self.add_object env object).result._bins j =
        some (env.bin_add_object b o) ∧
      BinCall.add_object (j : Int) o ∈ (self.add_object env object).calls := by
  cases hstate : object._state with
  | none =>
    have hrun : self.add_object env object = ⟨Outcome.assertion_failed, self, []⟩ := by
      unfold CullResult.add_object
      simp only [hstate]
    rw [hrun]
    exact Or.inl rfl
  | some state =>
    cases hs : splits state with
    | false =>
      rw [add_object_unsplit env self object state hstate hs]
      rcases add_object_final_slot_cases env self
        { object with _state := some (final_state state) } (final_state state) [] j with h | h
      · exact Or.inl h
      · obtain ⟨b, hb, hc⟩ := h
        exact Or.inr ⟨b, _, hb, hc⟩
    | true =>
      obtain ⟨_, hrun⟩ := add_object_split env self object state hstate hs
      rw [hrun]
      cases ht : self.resolve env
          (env.get_bin_index (state.compose get_dual_transparent_state)) with
      | none => exact Or.inl rfl
      | some bt =>
        have ht0 := resolve_nonneg env self _ bt ht
        dsimp only
        rcases add_object_final_slot_cases env
          { self with
            _bins := store_bin self._bins
              (env.get_bin_index (state.compose get_dual_transparent_state)).toNat
              (env.bin_add_object bt
                { object with _state := some (state.compose get_dual_transparent_state) }) }
          { object with _state := some (state.compose get_dual_opaque_state) }
          (state.compose get_dual_opaque_state)
          [BinCall.add_object (env.get_bin_index (state.compose get_dual_transparent_state))
            { object with _state := some (state.compose get_dual_transparent_state) }]
          j with h | h
        · dsimp only at h
          rw [bin_at_store_bin] at h
          by_cases hj : j = (env.get_bin_index
              (state.compose get_dual_transparent_state)).toNat
          · have hji : (j : Int) =
                env.get_bin_index (state.compose get_dual_transparent_state) := by omega
            rw [if_pos hj] at h
            right
            refine ⟨bt, _, h, ?_⟩
            apply add_object_final_calls
            rw [hji]
            exact List.mem_singleton_self _
          · rw [if_neg hj] at h
            exact Or.inl h
        · obtain ⟨b, hb, hc⟩ := h
          exact Or.inr ⟨b, _, hb, hc⟩

theorem add_objects_received (env : Env Bin) :
    ∀ (objects : List CullableObject) (self : CullResult Bin),
      (∀ j bin, bin_at self._bins j = some bin → ∃ b o, bin = env.bin_add_object b o) →
      ∀ j bin, bin_at (add_objects env self objects)._bins j = some bin →
        ∃ b o, bin = env.bin_add_object b o := by
  intro objects
  induction objects with
  | nil => intro self h; exact h
  | cons object rest ih =>
    intro self h
    apply ih
    intro j bin hbin
    rcases add_object_slot_cases env self object j with hsame | ⟨b, o, hb, _⟩
    · rw [hsame] at hbin
      exact h j bin hbin
    · rw [hb] at hbin
      exact ⟨b, o, (Option.some.inj hbin).symm⟩

theorem getElem?_store_bin (bins : List (Option Bin)) (i j : Nat) (b : Bin) :
    (store_bin bins i b)[j]? =
      if j = i then some (some b)
      else if j < bins.length then bins[j]?
      else if j < i then some none else none := by
  simp only [store_bin, List.getElem?_set, List.length_append, List.length_replicate,
    List.getElem?_append, List.getElem?_replicate]
  by_cases hji : j = i
  · subst hji
    have : j < bins.length + (j + 1 - bins.length) := by omega
    simp [this]
  · have hij : ¬ i = j := fun h => hji h.symm
    simp only [hij, hji, if_false]
    by_cases hlt : j < bins.length
    · simp [hlt]
    · simp only [hlt, if_false]
      by_cases hj : j < i
      · have : j - bins.length < i + 1 - bins.length := by omega
        simp [hj, this]
      · have : ¬ j - bins.length < i + 1 - bins.length := by omega
        simp [hj, this]

/-! ## Lemmas on the split of an M_dual object -/

theorem splits_of_dual (state : RenderState)
    (hmode : state.get_transparency = some ⟨TransparencyMode.M_dual⟩)
    (hbin : state.get_bin = none ∨ ∃ b, state.get_bin = some b ∧ b.bin_name.isEmpty = true) :
    splits state = true := by
  simp only [splits, decide_eq_true_eq]
  refine ⟨hmode, ?_⟩
  rcases hbin with h | ⟨b, hb, he⟩
  · exact Or.inl h
  · exact Or.inr (by rw [hb]; simp [he])

theorem add_object_split_resolved (env : Env Bin) (self : CullResult Bin)
    (object : CullableObject) (state : RenderState) (bt : Bin)
    (hstate : object._state = some state) (hs : splits state = true)
    (ht : self.resolve env
      (env.get_bin_index (state.compose get_dual_transparent_state)) = some bt) :
    self.add_object env object =
      match (if env.get_bin_index (state.compose get_dual_opaque_state) =
          env.get_bin_index (state.compose get_dual_transparent_state)
        then some (env.bin_add_object bt
          { object with _state := some (state.compose get_dual_transparent_state) })
        else self.resolve env (env.get_bin_index (state.compose get_dual_opaque_state))) with
      | some bin =>
        ⟨Outcome.returned,
          { self with
            _bins := store_bin
              (store_bin self._bins
                (env.get_bin_index (state.compose get_dual_transparent_state)).toNat
                (env.bin_add_object bt
                  { object with _state := some (state.compose get_dual_transparent_state) }))
              (env.get_bin_index (state.compose get_dual_opaque_state)).toNat
              (env.bin_add_object bin
                { object with _state := some (state.compose get_dual_opaque_state) }) },
          [BinCall.add_object (env.get_bin_index (state.compose get_dual_transparent_state))
              { object with _state := some (state.compose get_dual_transparent_state) },
            BinCall.add_object (env.get_bin_index (state.compose get_dual_opaque_state))
              { object with _state := some (state.compose get_dual_opaque_state) }]⟩
      | none =>
        ⟨Outcome.assertion_failed,
          { self with
            _bins := store_bin self._bins
              (env.get_bin_index (state.compose get_dual_transparent_state)).toNat
              (env.bin_add_object bt
                { object with _state := some (state.compose get_dual_transparent_state) }) },
          [BinCall.add_object (env.get_bin_index (state.compose get_dual_transparent_state))
            { object with _state := some (state.compose get_dual_transparent_state) }]⟩ := by
  have ht0 := resolve_nonneg env self _ bt ht
  obtain ⟨_, hrun⟩ := add_object_split env self object state hstate hs
  rw [hrun, ht]
  dsimp only
  rw [add_object_final_eq, resolve_store_bin env self _ _ _ ht0]
  rfl

theorem add_object_final_returned_slot (env : Env Bin) (self : CullResult Bin)
    (object : CullableObject) (state : RenderState) (calls : List BinCall)
    (h : (self.add_object_final env object state calls).outcome = Outcome.returned) :
    ∃ b, bin_at (self.add_object_final env object state calls).result._bins
      (env.get_bin_index state).toNat = some (env.bin_add_object b object) := by
  rw [add_object_final_eq] at h ⊢
  cases hr : self.resolve env (env.get_bin_index state) with
  | none => rw [hr] at h; exact Outcome.noConfusion h
  | some b =>
    refine ⟨b, ?_⟩
    dsimp only
    rw [bin_at_store_bin, if_pos rfl]

theorem add_object_returned_slot (env : Env Bin) (self : CullResult Bin)
    (object : CullableObject) (state : RenderState)
    (hstate : object._state = some state)
    (h : (self.add_object env object).outcome = Outcome.returned) :
    ∃ b, bin_at (self.add_object env object).result._bins
      (env.get_bin_index (final_state state)).toNat =
        some (env.bin_add_object b { object with _state := some (final_state state) }) := by
  cases hs : splits state with
  | false =>
    rw [add_object_unsplit env self object state hstate hs] at h ⊢
    exact add_object_final_returned_slot env self _ _ _ h
  | true =>
    obtain ⟨hfs, hrun⟩ := add_object_split env self object state hstate hs
    rw [hrun] at h ⊢
    rw [hfs]
    cases ht : self.resolve env
        (env.get_bin_index (state.compose get_dual_transparent_state)) with
    | none => rw [ht] at h; exact Outcome.noConfusion h
    | some bt =>
      rw [ht] at h
      exact add_object_final_returned_slot env _ _ _ _ h

theorem add_object_returned_call (env : Env Bin) (self : CullResult Bin)
    (object : CullableObject) (state : RenderState)
    (hstate : object._state = some state)
    (h : (self.add_object env object).outcome = Outcome.returned) :
    BinCall.add_object (env.get_bin_index (final_state state))
      { object with _state := some (final_state state) } ∈
      (self.add_object env object).calls := by
  cases hs : splits state with
  | false =>
    rw [add_object_unsplit env self object state hstate hs] at h ⊢
    exact (add_object_final_outcome env self _ (final_state state) []).2 h
  | true =>
    obtain ⟨hfs, hrun⟩ := add_object_split env self object state hstate hs
    rw [hrun] at h ⊢
    rw [hfs]
    cases ht : self.resolve env
        (env.get_bin_index (state.compose get_dual_transparent_state)) with
    | none => rw [ht] at h; exact Outcome.noConfusion h
    | some bt =>
      rw [ht] at h
      exact (add_object_final_outcome env _ _ _ _).2 h

theorem compose_slot_none {α : Type} (a : Option (Attribute α)) :
    compose_slot a none = a := by
  cases a <;> rfl

theorem compose_binary_eq_compose_dual_opaque (sb sd : RenderState)
    (hbin : sb.bin = sd.bin) (hothers : sb.others = sd.others) :
    sb.compose get_binary_state = sd.compose get_dual_opaque_state := by
  simp only [RenderState.compose, get_binary_state, get_dual_opaque_state, RenderState.make,
    compose_slot_max, compose_slot_none, hbin, hothers]

theorem final_state_of_binary (state : RenderState)
    (hmode : state.get_transparency = some ⟨TransparencyMode.M_binary⟩) :
    final_state state = state.compose get_binary_state := by
  unfold final_state
  simp only [hmode]

theorem final_state_of_split (state : RenderState) (hs : splits state = true) :
    final_state state = state.compose get_dual_opaque_state := by
  simp only [splits, decide_eq_true_eq] at hs
  unfold final_state
  simp only [hs.1, if_pos hs.2]

/-! ## Claims -/

/-- C1: an `M_dual` object without a bin override (no bin attribute, or one
with an empty name), both of whose composed states resolve to a bin, makes
`add_object` return normally having handed over exactly two objects: first
the clone, carrying `state.compose(get_dual_transparent_state())` (alpha
test less than 1.0, transparency alpha), to the bin at that state's bin
index, then the original, carrying `state.compose(get_dual_opaque_state())`
(alpha test equal to 1.0, transparency none), to the bin at that state's bin
index.  When the two indices are equal that bin gains both entries; every
other slot of the bin vector is as it was. -/
theorem add_object_dual_splits (env : Env Bin) (self : CullResult Bin)
    (object : CullableObject) (state ts os : RenderState) (bt bo : Bin)
    (hstate : object._state = some state)
    (hmode : state.get_transparency = some ⟨TransparencyMode.M_dual⟩)
    (hbin : state.get_bin = none ∨ ∃ b, state.get_bin = some b ∧ b.bin_name.isEmpty = true)
    (hts : ts = state.compose get_dual_transparent_state)
    (hos : os = state.compose get_dual_opaque_state)
    (ht : (self.get_bin env (env.get_bin_index ts)).1 = some bt)
    (ho : (self.get_bin env (env.get_bin_index os)).1 = some bo) :
    (self.add_object env object).outcome = Outcome.returned ∧
    (self.add_object env object).calls =
      [BinCall.add_object (env.get_bin_index ts) { object with _state := some ts },
       BinCall.add_object (env.get_bin_index os) { object with _state := some os }] ∧
    ts.get_alpha_test = some ⟨AlphaTestMode.M_less, 1⟩ ∧
    ts.get_transparency = some ⟨TransparencyMode.M_alpha⟩ ∧
    os.get_alpha_test = some ⟨AlphaTestMode.M_equal, 1⟩ ∧
    os.get_transparency = some ⟨TransparencyMode.M_none⟩ ∧
    (env.get_bin_index ts ≠ env.get_bin_index os →
      bin_at (self.add_object env object).result._bins (env.get_bin_index ts).toNat =
        some (env.bin_add_object bt { object with _state := some ts }) ∧
      bin_at (self.add_object env object).result._bins (env.get_bin_index os).toNat =
        some (env.bin_add_object bo { object with _state := some os })) ∧
    (env.get_bin_index ts = env.get_bin_index os →
      bin_at (self.add_object env object).result._bins (env.get_bin_index ts).toNat =
        some (env.bin_add_object (env.bin_add_object bt { object with _state := some ts })
          { object with _state := some os })) ∧
    (∀ j : Nat, (j : Int) ≠ env.get_bin_index ts → (j : Int) ≠ env.get_bin_index os →
      bin_at (self.add_object env object).result._bins j = bin_at self._bins j) := by
  rw [get_bin_fst] at ht ho
  have ht0 := resolve_nonneg env self _ bt ht
  have ho0 := resolve_nonneg env self _ bo ho
  have hcond : state.get_bin = none ∨
      (state.get_bin.map (fun b => b.bin_name.isEmpty)) = some true := by
    rcases hbin with h | ⟨b, hb, he⟩
    · exact Or.inl h
    · exact Or.inr (by rw [hb]; simp [he])
  have hrun : self.add_object env object =
      CullResult.add_object_final env
        { self with _bins := store_bin self._bins (env.get_bin_index ts).toNat
                      (env.bin_add_object bt { object with _state := some ts }) }
        { object with _state := some os } os
        [BinCall.add_object (env.get_bin_index ts) { object with _state := some ts }] := by
    unfold CullResult.add_object
    simp only [hstate, hmode]
    unfold CullResult.add_object_dual
    simp only [if_pos hcond]
    rw [← hts, ← hos, get_bin_eq, ht]
    simp only [CullResult.bin_add_object, store_bin_store_bin]
  have htr := compose_make_transparency state ⟨AlphaTestMode.M_less, 1⟩
    ⟨TransparencyMode.M_alpha⟩
  have hta := compose_make_alpha_test state ⟨AlphaTestMode.M_less, 1⟩
    ⟨TransparencyMode.M_alpha⟩
  have hor := compose_make_transparency state ⟨AlphaTestMode.M_equal, 1⟩
    ⟨TransparencyMode.M_none⟩
  have hoa := compose_make_alpha_test state ⟨AlphaTestMode.M_equal, 1⟩
    ⟨TransparencyMode.M_none⟩
  rw [hrun, add_object_final_eq, resolve_store_bin env self _ _ _ ht0]
  by_cases heq : env.get_bin_index os = env.get_bin_index ts
  · rw [if_pos heq]
    dsimp only
    refine ⟨rfl, rfl, ?_, ?_, ?_, ?_, ?_, ?_, ?_⟩
    · rw [hts]; exact hta
    · rw [hts]; exact htr
    · rw [hos]; exact hoa
    · rw [hos]; exact hor
    · intro hne; exact absurd heq.symm hne
    · intro _
      rw [heq, bin_at_store_bin, if_pos rfl]
    · intro j hjt hjo
      have h1 : ¬ j = (env.get_bin_index os).toNat := by omega
      have h2 : ¬ j = (env.get_bin_index ts).toNat := by omega
      rw [bin_at_store_bin, if_neg h1, bin_at_store_bin, if_neg h2]
  · rw [if_neg heq, ho]
    dsimp only
    have hne : ¬ (env.get_bin_index ts).toNat = (env.get_bin_index os).toNat := by omega
    refine ⟨rfl, rfl, ?_, ?_, ?_, ?_, ?_, ?_, ?_⟩
    · rw [hts]; exact hta
    · rw [hts]; exact htr
    · rw [hos]; exact hoa
    · rw [hos]; exact hor
    · intro _
      refine ⟨?_, ?_⟩
      · rw [bin_at_store_bin, if_neg hne, bin_at_store_bin, if_pos rfl]
      · rw [bin_at_store_bin, if_pos rfl]
    · intro h; exact absurd h.symm heq
    · intro j hjt hjo
      have h1 : ¬ j = (env.get_bin_index os).toNat := by omega
      have h2 : ¬ j = (env.get_bin_index ts).toNat := by omega
      rw [bin_at_store_bin, if_neg h1, bin_at_store_bin, if_neg h2]

/-- C1 at the scenario of the specification: X sits in bin 0, the `M_dual`
object Y (geometry 2) is added; bin 1 gets the transparent part of Y, bin 0
holds X and then the opaque part of Y. -/
theorem add_object_dual_splits_witness :
    (result_with_x.add_object scene_env
      (scene_object 2 (scene_state TransparencyMode.M_dual))).calls =
      [BinCall.add_object 1 (scene_object 2
          ((scene_state TransparencyMode.M_dual).compose get_dual_transparent_state)),
       BinCall.add_object 0 (scene_object 2
          ((scene_state TransparencyMode.M_dual).compose get_dual_opaque_state))] ∧
    bin_at (result_with_x.add_object scene_env
      (scene_object 2 (scene_state TransparencyMode.M_dual))).result._bins 1 =
      some [scene_object 2
        ((scene_state TransparencyMode.M_dual).compose get_dual_transparent_state)] ∧
    bin_at (result_with_x.add_object scene_env
      (scene_object 2 (scene_state TransparencyMode.M_dual))).result._bins 0 =
      some [scene_object 1 plain_state, scene_object 2
        ((scene_state TransparencyMode.M_dual).compose get_dual_opaque_state)] :=
  have h := add_object_dual_splits scene_env result_with_x
    (scene_object 2 (scene_state TransparencyMode.M_dual))
    (scene_state TransparencyMode.M_dual)
    ((scene_state TransparencyMode.M_dual).compose get_dual_transparent_state)
    ((scene_state TransparencyMode.M_dual).compose get_dual_opaque_state)
    [] [scene_object 1 plain_state] rfl rfl (Or.inl rfl) rfl rfl rfl rfl
  ⟨h.2.1, (h.2.2.2.2.2.2.1 (by decide)).1, (h.2.2.2.2.2.2.1 (by decide)).2⟩

/-- C2, as the code has it: for an `M_binary` object, whatever alpha test
and transparency its state carries and at whatever priority, the state
`state.compose(get_binary_state())` has alpha test equal to 1.0 and
transparency none.  When the bin index of that composed state resolves to a
bin, `add_object` returns normally having handed over exactly one object,
carrying the composed state, to the bin at that index, and every other slot
of the bin vector is as it was.  When it resolves to no bin, `add_object`
fails, hands over nothing and leaves the result as it was. -/
theorem add_object_binary_routes (env : Env Bin) (self : CullResult Bin)
    (object : CullableObject) (state bs : RenderState)
    (hstate : object._state = some state)
    (hmode : state.get_transparency = some ⟨TransparencyMode.M_binary⟩)
    (hbs : bs = state.compose get_binary_state) :
    bs.get_alpha_test = some ⟨AlphaTestMode.M_equal, 1⟩ ∧
    bs.get_transparency = some ⟨TransparencyMode.M_none⟩ ∧
    (∀ b, (self.get_bin env (env.get_bin_index bs)).1 = some b →
      (self.add_object env object).outcome = Outcome.returned ∧
      (self.add_object env object).calls =
        [BinCall.add_object (env.get_bin_index bs) { object with _state := some bs }] ∧
      bin_at (self.add_object env object).result._bins (env.get_bin_index bs).toNat =
        some (env.bin_add_object b { object with _state := some bs }) ∧
      (∀ j : Nat, (j : Int) ≠ env.get_bin_index bs →
        bin_at (self.add_object env object).result._bins j = bin_at self._bins j)) ∧
    ((self.get_bin env (env.get_bin_index bs)).1 = none →
      (self.add_object env object).outcome = Outcome.assertion_failed ∧
      (self.add_object env object).calls = [] ∧
      (self.add_object env object).result = self) := by
  subst hbs
  rw [add_object_of_binary env self object state hstate hmode]
  refine ⟨compose_make_alpha_test state ⟨AlphaTestMode.M_equal, 1⟩ ⟨TransparencyMode.M_none⟩,
    compose_make_transparency state ⟨AlphaTestMode.M_equal, 1⟩ ⟨TransparencyMode.M_none⟩,
    fun b hb => ?_, fun hn => ?_⟩
  · have h := add_object_final_routes env self
      { object with _state := some (state.compose get_binary_state) }
      (state.compose get_binary_state) b hb
    exact ⟨h.1, h.2.1, h.2.2.2.1, h.2.2.2.2⟩
  · rw [add_object_final_unresolved env self _ _ [] hn]
    exact ⟨rfl, rfl, rfl⟩

/-- C2 on an `M_binary` state that already holds an alpha test (less than
1/2) and its transparency at the maximum priority: the routed object has
alpha test equal to 1.0 and transparency none, and sits in bin 0. -/
theorem add_object_binary_routes_witness :
    (empty_result.add_object scene_env (scene_object 3 binary_state_max)).calls =
      [BinCall.add_object 0 (scene_object 3 (binary_state_max.compose get_binary_state))] ∧
    (binary_state_max.compose get_binary_state).get_alpha_test =
      some ⟨AlphaTestMode.M_equal, 1⟩ ∧
    (binary_state_max.compose get_binary_state).get_transparency =
      some ⟨TransparencyMode.M_none⟩ ∧
    bin_at (empty_result.add_object scene_env (scene_object 3 binary_state_max)).result._bins 0 =
      some [scene_object 3 (binary_state_max.compose get_binary_state)] :=
  have h := add_object_binary_routes scene_env empty_result (scene_object 3 binary_state_max)
    binary_state_max (binary_state_max.compose get_binary_state) rfl rfl rfl
  ⟨(h.2.2.1 [] rfl).2.1, h.1, h.2.1, (h.2.2.1 [] rfl).2.2.1⟩

/-- C2 fails as stated: an `M_binary` object whose state names the bin
"nowhere", which the manager has not registered (index 99), is handed to no
bin at all; `add_object` stops at its `nassertv`. -/
theorem add_object_binary_unregistered :
    (scene_state_in_bin TransparencyMode.M_binary "nowhere").get_transparency =
      some ⟨TransparencyMode.M_binary⟩ ∧
    (empty_result.add_object scene_env
      (scene_object 3 (scene_state_in_bin TransparencyMode.M_binary "nowhere"))).calls = [] ∧
    (empty_result.add_object scene_env
      (scene_object 3 (scene_state_in_bin TransparencyMode.M_binary "nowhere"))).outcome =
      Outcome.assertion_failed ∧
    (empty_result.add_object scene_env
      (scene_object 3 (scene_state_in_bin TransparencyMode.M_binary "nowhere"))).result._bins =
      [] :=
  ⟨rfl, rfl, rfl, rfl⟩

/-- C3, as the code has it: an `M_dual` object whose state has a bin
attribute with a non-empty name is never split.  When the bin index of its
state resolves to a bin, `add_object` returns normally having handed over
exactly one object, the object itself with its state as it was, to the bin
at that index, and every other slot of the bin vector is as it was.  When it
resolves to no bin, `add_object` fails, hands over nothing and leaves the
result as it was. -/
theorem add_object_dual_in_bin_routes (env : Env Bin) (self : CullResult Bin)
    (object : CullableObject) (state : RenderState) (attrib : CullBinAttrib)
    (hstate : object._state = some state)
    (hmode : state.get_transparency = some ⟨TransparencyMode.M_dual⟩)
    (hbin : state.get_bin = some attrib) (hname : attrib.bin_name.isEmpty = false) :
    (∀ b, (self.get_bin env (env.get_bin_index state)).1 = some b →
      (self.add_object env object).outcome = Outcome.returned ∧
      (self.add_object env object).calls =
        [BinCall.add_object (env.get_bin_index state) object] ∧
      bin_at (self.add_object env object).result._bins (env.get_bin_index state).toNat =
        some (env.bin_add_object b object) ∧
      (∀ j : Nat, (j : Int) ≠ env.get_bin_index state →
        bin_at (self.add_object env object).result._bins j = bin_at self._bins j)) ∧
    ((self.get_bin env (env.get_bin_index state)).1 = none →
      (self.add_object env object).outcome = Outcome.assertion_failed ∧
      (self.add_object env object).calls = [] ∧
      (self.add_object env object).result = self) := by
  rw [add_object_of_dual_in_bin env self object state attrib hstate hmode hbin hname]
  refine ⟨fun b hb => ?_, fun hn => ?_⟩
  · have h := add_object_final_routes env self object state b hb
    exact ⟨h.1, h.2.1, h.2.2.2.1, h.2.2.2.2⟩
  · rw [add_object_final_unresolved env self _ _ [] hn]
    exact ⟨rfl, rfl, rfl⟩

/-- C3 on an `M_dual` object whose state names the bin "fixed" (index 2),
added after X: one object, unchanged, lands in bin 2, and bin 1 is as
before. -/
theorem add_object_dual_in_bin_routes_witness :
    (result_with_x.add_object scene_env
      (scene_object 4 (scene_state_in_bin TransparencyMode.M_dual "fixed"))).calls =
      [BinCall.add_object 2
        (scene_object 4 (scene_state_in_bin TransparencyMode.M_dual "fixed"))] ∧
    bin_at (result_with_x.add_object scene_env
      (scene_object 4 (scene_state_in_bin TransparencyMode.M_dual "fixed"))).result._bins 2 =
      some [scene_object 4 (scene_state_in_bin TransparencyMode.M_dual "fixed")] ∧
    bin_at (result_with_x.add_object scene_env
      (scene_object 4 (scene_state_in_bin TransparencyMode.M_dual "fixed"))).result._bins 1 =
      bin_at result_with_x._bins 1 :=
  have h := add_object_dual_in_bin_routes scene_env result_with_x
    (scene_object 4 (scene_state_in_bin TransparencyMode.M_dual "fixed"))
    (scene_state_in_bin TransparencyMode.M_dual "fixed") ⟨"fixed"⟩
    rfl rfl rfl (by decide)
  ⟨(h.1 [] rfl).2.1, (h.1 [] rfl).2.2.1, (h.1 [] rfl).2.2.2 1 (by decide)⟩

/-- C3 fails as stated: an `M_dual` object whose state names the bin
"nowhere", which the manager has not registered (index 99), is handed to no
bin at all; `add_object` stops at its `nassertv`. -/
theorem add_object_dual_in_bin_unregistered :
    (scene_state_in_bin TransparencyMode.M_dual "nowhere").get_transparency =
      some ⟨TransparencyMode.M_dual⟩ ∧
    (scene_state_in_bin TransparencyMode.M_dual "nowhere").get_bin = some ⟨"nowhere"⟩ ∧
    (empty_result.add_object scene_env
      (scene_object 4 (scene_state_in_bin TransparencyMode.M_dual "nowhere"))).calls = [] ∧
    (empty_result.add_object scene_env
      (scene_object 4 (scene_state_in_bin TransparencyMode.M_dual "nowhere"))).outcome =
      Outcome.assertion_failed ∧
    (empty_result.add_object scene_env
      (scene_object 4 (scene_state_in_bin TransparencyMode.M_dual "nowhere"))).result._bins =
      [] :=
  ⟨rfl, rfl, rfl, rfl, rfl⟩

/-- C4: when every bin index the manager reports is non-negative, `draw`
returns normally and the `draw` calls it issues are exactly the manager's
order restricted to the indices that are inside the bin vector of this
result and hold a bin there, in the manager's order.  A bin whose index the
manager does not report is never drawn: no call is issued for it and its
slot is as it was. -/
theorem draw_follows_manager_order (env : Env Bin) (self : CullResult Bin)
    (h : ∀ i ∈ manager_order env, 0 ≤ i) :
    (self.draw env).outcome = Outcome.returned ∧
    (self.draw env).calls =
      ((manager_order env).filter (populated self._bins)).map BinCall.draw ∧
    (∀ j : Nat, (j : Int) ∉ manager_order env →
      BinCall.draw (j : Int) ∉ (self.draw env).calls ∧
      bin_at (self.draw env).result._bins j = bin_at self._bins j) := by
  have h1 := draw_loop_nonneg env (manager_order env) self h
  have h2 := draw_loop_frame env (manager_order env) self
  refine ⟨h1.1, h1.2, fun j hj => ⟨?_, h2.2 j hj⟩⟩
  unfold CullResult.draw
  rw [h1.2]
  intro hmem
  rw [List.mem_map] at hmem
  obtain ⟨k, hk, hkj⟩ := hmem
  have hkj2 : k = (j : Int) := by injection hkj
  rw [hkj2] at hk
  exact hj (List.mem_of_mem_filter hk)

/-- C4 on a result with bins 0, 2 and 3 populated and slot 1 null, under
the manager order 2, 0, 1: bin 2 is drawn, then bin 0; bin 3, which the
manager does not list, keeps its object. -/
theorem draw_follows_manager_order_witness :
    manager_order scene_env = [2, 0, 1] ∧
    (result_with_gap.draw scene_env).calls = [BinCall.draw 2, BinCall.draw 0] ∧
    bin_at (result_with_gap.draw scene_env).result._bins 3 =
      some [scene_object 6 plain_state] :=
  have h := draw_follows_manager_order scene_env result_with_gap (by decide)
  ⟨rfl, h.2.1, (h.2.2 3 (by decide)).2⟩

/-- C5: `make_next` returns a result bound to the same graphics state
guardian, with a bin vector of the same length, null exactly where the
source is null and holding `make_next()` of the source bin everywhere else;
the source result is as it was. -/
theorem make_next_keeps_shape (env : Env Bin) (self : CullResult Bin) :
    (self.make_next env).1._gsg = self._gsg ∧
    (self.make_next env).1._bins.length = self._bins.length ∧
    (∀ j : Nat, bin_at (self.make_next env).1._bins j = none ↔ bin_at self._bins j = none) ∧
    (∀ (j : Nat) (b : Bin), bin_at self._bins j = some b →
      bin_at (self.make_next env).1._bins j = some (env.bin_make_next b)) ∧
    (self.make_next env).2 = self := by
  have hat : ∀ j : Nat, bin_at (self.make_next env).1._bins j =
      (bin_at self._bins j).map env.bin_make_next := by
    intro j
    simp only [CullResult.make_next]
    rw [bin_at_map _ rfl]
    cases bin_at self._bins j <;> rfl
  refine ⟨rfl, by simp [CullResult.make_next], fun j => ?_, fun j b hb => ?_, rfl⟩
  · rw [hat j]
    cases bin_at self._bins j <;> simp
  · rw [hat j, hb]
    rfl

/-- C6: `add_object` stops at an `nassertv` exactly when the state of the
object is null, or the object is split and the bin index of the clone
resolves to no bin, or the bin index of the state the object is left with
resolves to no bin; a resolution is taken on the result as `add_object`
finds it, since handing the clone over does not change whether an index
resolves.  In particular it fails when that last index is one the manager
makes no bin for, on every reachable result and on every result that holds
no bin at that index; and whenever it returns normally the object has been
handed to the bin of that index. -/
theorem add_object_fails_iff (env : Env Bin) (self : CullResult Bin)
    (object : CullableObject) :
    ((self.add_object env object).outcome = Outcome.assertion_failed ↔
      object._state = none ∨
      ∃ state, object._state = some state ∧
        ((splits state = true ∧
          (self.get_bin env
            (env.get_bin_index (state.compose get_dual_transparent_state))).1 = none) ∨
        (self.get_bin env (env.get_bin_index (final_state state))).1 = none)) ∧
    (∀ state, object._state = some state →
      env.manager_make_new_bin (env.get_bin_index (final_state state)) self._gsg = none →
      (Reachable env self ∨
        populated self._bins (env.get_bin_index (final_state state)) = false) →
      (self.add_object env object).outcome = Outcome.assertion_failed) ∧
    ((self.add_object env object).outcome = Outcome.returned →
      ∃ state, object._state = some state ∧
        BinCall.add_object (env.get_bin_index (final_state state))
          { object with _state := some (final_state state) } ∈
          (self.add_object env object).calls) := by
  cases hstate : object._state with
  | none =>
    have hrun : self.add_object env object = ⟨Outcome.assertion_failed, self, []⟩ := by
      unfold CullResult.add_object
      simp only [hstate]
    rw [hrun]
    refine ⟨⟨fun _ => Or.inl rfl, fun _ => rfl⟩, fun state h => ?_, fun h => ?_⟩
    · exact Option.noConfusion h
    · exact Outcome.noConfusion h
  | some state =>
    have hiff : (self.add_object env object).outcome = Outcome.assertion_failed ↔
        ((splits state = true ∧
          self.resolve env
            (env.get_bin_index (state.compose get_dual_transparent_state)) = none) ∨
        self.resolve env (env.get_bin_index (final_state state)) = none) := by
      cases hs : splits state with
      | false =>
        rw [add_object_unsplit env self object state hstate hs]
        rw [(add_object_final_outcome env self _ (final_state state) []).1]
        simp
      | true =>
        obtain ⟨hfs, hrun⟩ := add_object_split env self object state hstate hs
        rw [hrun, hfs]
        cases ht : self.resolve env
            (env.get_bin_index (state.compose get_dual_transparent_state)) with
        | none => simp
        | some bt =>
          have ht0 := resolve_nonneg env self _ bt ht
          dsimp only
          rw [(add_object_final_outcome env _ _ _ _).1, resolve_store_bin env self _ _ _ ht0]
          by_cases heq : env.get_bin_index (state.compose get_dual_opaque_state) =
              env.get_bin_index (state.compose get_dual_transparent_state)
          · rw [if_pos heq, heq, ht]
            simp
          · rw [if_neg heq]
            simp
    have hret : (self.add_object env object).outcome = Outcome.returned →
        BinCall.add_object (env.get_bin_index (final_state state))
          { object with _state := some (final_state state) } ∈
          (self.add_object env object).calls := by
      cases hs : splits state with
      | false =>
        rw [add_object_unsplit env self object state hstate hs]
        exact (add_object_final_outcome env self _ (final_state state) []).2
      | true =>
        obtain ⟨hfs, hrun⟩ := add_object_split env self object state hstate hs
        rw [hrun, hfs]
        cases ht : self.resolve env
            (env.get_bin_index (state.compose get_dual_transparent_state)) with
        | none => intro h; exact Outcome.noConfusion h
        | some bt => exact (add_object_final_outcome env _ _ _ _).2
    refine ⟨?_, fun st hst hm hr => ?_, fun h => ⟨state, rfl, hret h⟩⟩
    · rw [hiff]
      simp only [get_bin_fst]
      constructor
      · intro h
        exact Or.inr ⟨state, rfl, h⟩
      · rintro (h | ⟨st, hst, h⟩)
        · exact Option.noConfusion h
        · have : st = state := (Option.some.inj hst).symm
          subst this
          exact h
    · have : st = state := (Option.some.inj hst).symm
      subst this
      have hp : populated self._bins (env.get_bin_index (final_state st)) = false := by
        rcases hr with hr | hr
        · exact not_populated_of_unregistered env self hr _ hm
        · exact hr
      rw [hiff]
      exact Or.inr (resolve_of_not_populated env self _ hp hm)

/-- C6 on the scenario of the specification: an object whose state names
the bin "nowhere" asks for index 99, which the manager has not registered;
`add_object` fails and nothing is handed to a bin. -/
theorem add_object_fails_iff_witness :
    scene_env.get_bin_index
      (final_state (scene_state_in_bin TransparencyMode.M_alpha "nowhere")) = 99 ∧
    (result_with_x.add_object scene_env
      (scene_object 8 (scene_state_in_bin TransparencyMode.M_alpha "nowhere"))).outcome =
      Outcome.assertion_failed :=
  ⟨rfl, (add_object_fails_iff scene_env result_with_x
    (scene_object 8 (scene_state_in_bin TransparencyMode.M_alpha "nowhere"))).2.1
    (scene_state_in_bin TransparencyMode.M_alpha "nowhere") rfl rfl
    (Or.inl (Reachable.add_object _ _ (Reachable.empty 7)))⟩

/-- C7, as the code has it: for an object whose state has no transparency
attribute, or one of a mode other than `M_binary` and `M_dual`, nothing is
composed and nothing is cloned.  When the bin index of its state resolves to
a bin, `add_object` returns normally having handed over exactly one object,
the object itself with its state as it was, to the bin at that index; when
the slot held no bin the bin is the one the manager makes for that index,
otherwise it is the bin the slot held; every other slot of the bin vector
is as it was.  When the index resolves to no bin, `add_object` fails, hands
over nothing and leaves the result as it was, no bin made. -/
theorem add_object_plain_routes (env : Env Bin) (self : CullResult Bin)
    (object : CullableObject) (state : RenderState)
    (hstate : object._state = some state)
    (hmode : state.get_transparency = none ∨
      ∃ t, state.get_transparency = some t ∧ t.mode ≠ TransparencyMode.M_binary ∧
        t.mode ≠ TransparencyMode.M_dual) :
    (∀ b, (self.get_bin env (env.get_bin_index state)).1 = some b →
      (self.add_object env object).outcome = Outcome.returned ∧
      (self.add_object env object).calls =
        [BinCall.add_object (env.get_bin_index state) object] ∧
      bin_at (self.add_object env object).result._bins (env.get_bin_index state).toNat =
        some (env.bin_add_object b object) ∧
      (bin_at self._bins (env.get_bin_index state).toNat = none →
        env.manager_make_new_bin (env.get_bin_index state) self._gsg = some b) ∧
      (∀ c, bin_at self._bins (env.get_bin_index state).toNat = some c → c = b) ∧
      (∀ j : Nat, (j : Int) ≠ env.get_bin_index state →
        bin_at (self.add_object env object).result._bins j = bin_at self._bins j)) ∧
    ((self.get_bin env (env.get_bin_index state)).1 = none →
      (self.add_object env object).outcome = Outcome.assertion_failed ∧
      (self.add_object env object).calls = [] ∧
      (self.add_object env object).result = self) := by
  rw [add_object_of_plain env self object state hstate hmode]
  refine ⟨fun b hb => ?_, fun hn => ?_⟩
  · have h := add_object_final_routes env self object state b hb
    rw [get_bin_fst] at hb
    refine ⟨h.1, h.2.1, h.2.2.2.1, ?_, ?_, h.2.2.2.2⟩
    · intro hnone
      rcases resolve_cases env self _ b hb with hc | ⟨_, hm⟩
      · rw [hnone] at hc; exact Option.noConfusion hc
      · exact hm
    · intro c hc
      rcases resolve_cases env self _ b hb with hc2 | ⟨hn, _⟩
      · rw [hc] at hc2; exact Option.some.inj hc2
      · rw [hc] at hn; exact Option.noConfusion hn
  · rw [add_object_final_unresolved env self _ _ [] hn]
    exact ⟨rfl, rfl, rfl⟩

/-- C7 on object X (no attribute at all) added to the empty result: bin 0
is made by the manager and holds X, one object was handed over. -/
theorem add_object_plain_routes_witness :
    (empty_result.add_object scene_env (scene_object 1 plain_state)).calls =
      [BinCall.add_object 0 (scene_object 1 plain_state)] ∧
    bin_at (empty_result.add_object scene_env (scene_object 1 plain_state)).result._bins 0 =
      some [scene_object 1 plain_state] ∧
    scene_env.manager_make_new_bin 0 7 = some [] :=
  have h := add_object_plain_routes scene_env empty_result (scene_object 1 plain_state)
    plain_state rfl (Or.inl rfl)
  ⟨(h.1 [] rfl).2.1, (h.1 [] rfl).2.2.1, (h.1 [] rfl).2.2.2.1 rfl⟩

/-- C7 fails as stated: an object of mode `M_none` whose state names the
bin "nowhere", which the manager has not registered (index 99), is handed
to no bin at all and no bin is made; `add_object` stops at its
`nassertv`. -/
theorem add_object_plain_unregistered :
    (scene_state_in_bin TransparencyMode.M_none "nowhere").get_transparency =
      some ⟨TransparencyMode.M_none⟩ ∧
    (empty_result.add_object scene_env
      (scene_object 5 (scene_state_in_bin TransparencyMode.M_none "nowhere"))).calls = [] ∧
    (empty_result.add_object scene_env
      (scene_object 5 (scene_state_in_bin TransparencyMode.M_none "nowhere"))).outcome =
      Outcome.assertion_failed ∧
    (empty_result.add_object scene_env
      (scene_object 5 (scene_state_in_bin TransparencyMode.M_none "nowhere"))).result._bins =
      [] :=
  ⟨rfl, rfl, rfl, rfl⟩

/-- C8, as the code has it, for an index `i` the manager reports between
the earlier indices `pre` and the later ones `post`.  When `i` is at or
beyond the end of the bin vector it is skipped: `draw` does what it does on
the order without `i`, so, the other indices being non-negative, it returns
normally and draws every later index that is inside the vector and holds a
bin.  When `i` is negative it is not skipped: `draw` stops at its `nassertv`
having drawn bins of earlier positions only. -/
theorem draw_skips_index_past_end (env : Env Bin) (self : CullResult Bin)
    (pre post : List Int) (i : Int)
    (horder : manager_order env = pre ++ i :: post) :
    ((self._bins.length : Int) ≤ i →
      self.draw env = draw_loop env (pre ++ post) self ∧
      ((∀ k ∈ pre ++ post, 0 ≤ k) →
        (self.draw env).outcome = Outcome.returned ∧
        ∀ k ∈ post, populated self._bins k = true →
          BinCall.draw k ∈ (self.draw env).calls)) ∧
    (i < 0 → (∀ k ∈ pre, 0 ≤ k) →
      (self.draw env).outcome = Outcome.assertion_failed ∧
      (self.draw env).calls = (pre.filter (populated self._bins)).map BinCall.draw) := by
  unfold CullResult.draw
  rw [horder]
  refine ⟨fun hi => ?_, fun hi hpre => draw_loop_at_negative env i post hi pre self hpre⟩
  rw [draw_loop_past_end env i post pre self hi]
  refine ⟨rfl, fun hnn => ?_⟩
  have h1 := draw_loop_nonneg env (pre ++ post) self hnn
  refine ⟨h1.1, fun k hk hp => ?_⟩
  rw [h1.2, List.mem_map]
  exact ⟨k, List.mem_filter.mpr ⟨List.mem_append_right pre hk, hp⟩, rfl⟩

/-- C8 on the result holding X in bin 0 only, under the manager order
2, 0, 1: index 2 is beyond the end of the one-slot vector and is skipped,
`draw` returns normally and bin 0, which comes later, is drawn. -/
theorem draw_skips_index_past_end_witness :
    manager_order scene_env = [] ++ 2 :: [0, 1] ∧
    result_with_x.draw scene_env = draw_loop scene_env ([] ++ [0, 1]) result_with_x ∧
    (result_with_x.draw scene_env).outcome = Outcome.returned ∧
    BinCall.draw 0 ∈ (result_with_x.draw scene_env).calls :=
  have h := draw_skips_index_past_end scene_env result_with_x [] [0, 1] 2 rfl
  ⟨rfl, (h.1 (by decide)).1, ((h.1 (by decide)).2 (by decide)).1,
    ((h.1 (by decide)).2 (by decide)).2 0 (by decide) rfl⟩

/-- C8 fails as stated: with the manager order -1, 0 and X sitting in bin
0, `draw` stops at the negative index and bin 0, which is inside the vector,
holds a bin and comes later in the order, is not drawn. -/
theorem draw_stops_at_negative_index :
    manager_order scene_env_negative = [-1, 0] ∧
    populated result_with_x._bins 0 = true ∧
    (result_with_x.draw scene_env_negative).outcome = Outcome.assertion_failed ∧
    (result_with_x.draw scene_env_negative).calls = [] :=
  ⟨rfl, rfl, rfl, rfl⟩

/-- C9: `finish_cull` returns normally having called `finish_cull()` on the
bins of the non-null slots and on nothing else, once each, by increasing
position; afterwards the bin vector has the length it had, every non-null
slot holds its bin after `finish_cull()`, and the null slots are the same
ones. -/
theorem finish_cull_visits_each_bin_once (env : Env Bin) (self : CullResult Bin) :
    (self.finish_cull env).outcome = Outcome.returned ∧
    (self.finish_cull env).calls =
      ((List.range self._bins.length).filter
        (fun j => (bin_at self._bins j).isSome)).map BinCall.finish_cull ∧
    List.Sorted (fun a b => a < b)
      ((List.range self._bins.length).filter (fun j => (bin_at self._bins j).isSome)) ∧
    (∀ j : Nat, j ∈ (List.range self._bins.length).filter
        (fun j => (bin_at self._bins j).isSome) ↔ bin_at self._bins j ≠ none) ∧
    (self.finish_cull env).result._bins.length = self._bins.length ∧
    (∀ j : Nat, bin_at (self.finish_cull env).result._bins j =
      (bin_at self._bins j).map env.bin_finish_cull) ∧
    (∀ j : Nat, bin_at (self.finish_cull env).result._bins j = none ↔
      bin_at self._bins j = none) := by
  have hs := finish_cull_loop_spec env self._bins 0
  have hat : ∀ j : Nat, bin_at (self.finish_cull env).result._bins j =
      (bin_at self._bins j).map env.bin_finish_cull := by
    intro j
    simp only [CullResult.finish_cull]
    rw [hs.1, bin_at_map _ rfl]
  refine ⟨rfl, ?_, (List.sorted_lt_range _).filter _, fun j => ?_, ?_, hat, fun j => ?_⟩
  · simp only [CullResult.finish_cull]
    rw [hs.2]
    simp only [Nat.zero_add]
  · rw [List.mem_filter, List.mem_range]
    constructor
    · intro h hn
      rw [hn] at h
      exact absurd h.2 (by simp)
    · intro h
      have hlt : j < self._bins.length := by
        by_contra hge
        exact h (bin_at_of_length_le _ _ (Nat.le_of_not_lt hge))
      refine ⟨hlt, ?_⟩
      cases hb : bin_at self._bins j with
      | none => exact absurd hb h
      | some b => rfl
  · simp only [CullResult.finish_cull]
    rw [hs.1, List.length_map]
  · rw [hat j]
    cases bin_at self._bins j <;> simp

/-- C10: `bin_removed` stops at its `nassertv(false)` for every bin index
and every result; the result is as it was, no slot is cleared and no bin is
called. -/
theorem bin_removed_always_fails (self : CullResult Bin) (bin_index : Int) :
    (self.bin_removed bin_index).outcome = Outcome.assertion_failed ∧
    (self.bin_removed bin_index).result = self ∧
    (self.bin_removed bin_index).calls = [] ∧
    (∀ j : Nat, bin_at (self.bin_removed bin_index).result._bins j = bin_at self._bins j) :=
  ⟨rfl, rfl, rfl, fun _ => rfl⟩

/-- C11: after any sequence of `add_object` calls on a result that started
with no bins, whichever of the calls returned or failed, every non-null slot
holds a bin that is the outcome of `CullBin::add_object`, so it has received
an object.  And in one call of `add_object` on any result, a slot that was
null before and holds a bin after holds a bin to which that very call has
handed an object. -/
theorem stored_bins_have_received_an_object (env : Env Bin) (gsg : Nat)
    (objects : List CullableObject) :
    (∀ (j : Nat) (bin : Bin),
      bin_at (add_objects env { _gsg := gsg, _bins := [] } objects)._bins j = some bin →
      ∃ b o, bin = env.bin_add_object b o) ∧
    (∀ (self : CullResult Bin) (object : CullableObject) (j : Nat) (bin : Bin),
      bin_at self._bins j = none →
      bin_at (self.add_object env object).result._bins j = some bin →
      ∃ b o, bin = env.bin_add_object b o ∧
        BinCall.add_object (j : Int) o ∈ (self.add_object env object).calls) := by
  refine ⟨?_, fun self object j bin hnone hsome => ?_⟩
  · apply add_objects_received env objects
    intro j bin h
    simp [bin_at] at h
  · rcases add_object_slot_cases env self object j with hsame | ⟨b, o, hb, hc⟩
    · rw [hsame, hnone] at hsome
      exact Option.noConfusion hsome
    · rw [hb] at hsome
      exact ⟨b, o, (Option.some.inj hsome).symm, hc⟩

/-- C11 on the scenario of the specification, X then the `M_dual` object Y
added to a result without bins: slot 1 holds the bin that received the
transparent part of Y. -/
theorem stored_bins_have_received_an_object_witness :
    bin_at (add_objects scene_env empty_result
      [scene_object 1 plain_state,
        scene_object 2 (scene_state TransparencyMode.M_dual)])._bins 1 =
      some [scene_object 2
        ((scene_state TransparencyMode.M_dual).compose get_dual_transparent_state)] ∧
    ∃ b o, [scene_object 2
        ((scene_state TransparencyMode.M_dual).compose get_dual_transparent_state)] =
      scene_env.bin_add_object b o :=
  ⟨rfl, (stored_bins_have_received_an_object scene_env 7
    [scene_object 1 plain_state, scene_object 2 (scene_state TransparencyMode.M_dual)]).1 1
    [scene_object 2 ((scene_state TransparencyMode.M_dual).compose get_dual_transparent_state)]
    rfl⟩

/-- C12: when the manager makes a bin for a non-negative `bin_index`,
`make_new_bin` returns that bin; afterwards the bin vector has the length
max(old length, bin_index + 1), slot `bin_index` holds the new bin, every
other slot that existed before is as it was, and every slot that was added
below `bin_index` is null. -/
theorem make_new_bin_stores (env : Env Bin) (self : CullResult Bin) (bin_index : Int)
    (bin : Bin)
    (hm : env.manager_make_new_bin bin_index self._gsg = some bin)
    (h0 : 0 ≤ bin_index) :
    (self.make_new_bin env bin_index).1 = some bin ∧
    (self.make_new_bin env bin_index).2._bins.length =
      max self._bins.length (bin_index.toNat + 1) ∧
    (self.make_new_bin env bin_index).2._bins[bin_index.toNat]? = some (some bin) ∧
    (∀ j : Nat, j ≠ bin_index.toNat → j < self._bins.length →
      (self.make_new_bin env bin_index).2._bins[j]? = self._bins[j]?) ∧
    (∀ j : Nat, self._bins.length ≤ j → j < bin_index.toNat →
      (self.make_new_bin env bin_index).2._bins[j]? = some none) ∧
    (self.make_new_bin env bin_index).2._gsg = self._gsg := by
  rw [make_new_bin_eq, hm]
  dsimp only
  rw [if_pos h0]
  refine ⟨rfl, length_store_bin _ _ _, ?_, fun j hj hlt => ?_, fun j hge hlt => ?_, rfl⟩
  · dsimp only
    rw [getElem?_store_bin, if_pos rfl]
  · dsimp only
    rw [getElem?_store_bin, if_neg hj, if_pos hlt]
  · dsimp only
    have hj : ¬ j = bin_index.toNat := by omega
    have hnl : ¬ j < self._bins.length := by omega
    rw [getElem?_store_bin, if_neg hj, if_neg hnl, if_pos hlt]

/-- C12 on the result holding X in bin 0, asked for bin 2: the bin vector
grows to three slots, slot 2 holds the new bin, slot 0 still holds X and the
new slot 1 is null. -/
theorem make_new_bin_stores_witness :
    (result_with_x.make_new_bin scene_env 2).1 = some [] ∧
    (result_with_x.make_new_bin scene_env 2).2._bins =
      [some [scene_object 1 plain_state], none, some []] :=
  ⟨(make_new_bin_stores scene_env result_with_x 2 [] rfl (by decide)).1, rfl⟩

/-- C13: when the manager makes no bin for `bin_index`, `make_new_bin`
returns null and the result is as it was: the bin vector has not grown and
no slot has been written, whatever `bin_index` is, one beyond the end of the
vector included. -/
theorem make_new_bin_null (env : Env Bin) (self : CullResult Bin) (bin_index : Int)
    (hm : env.manager_make_new_bin bin_index self._gsg = none) :
    (self.make_new_bin env bin_index).1 = none ∧
    (self.make_new_bin env bin_index).2 = self ∧
    (self.make_new_bin env bin_index).2._bins = self._bins ∧
    (self.make_new_bin env bin_index).2._bins.length = self._bins.length := by
  rw [make_new_bin_eq, hm]
  exact ⟨rfl, rfl, rfl, rfl⟩

/-- C13 on the result holding X in bin 0, asked for the unregistered bin
99, far beyond the end of the vector: null comes back and the vector still
has its one slot. -/
theorem make_new_bin_null_witness :
    (result_with_x.make_new_bin scene_env 99).1 = none ∧
    (result_with_x.make_new_bin scene_env 99).2._bins = [some [scene_object 1 plain_state]] :=
  have h := make_new_bin_null scene_env result_with_x 99 rfl
  ⟨h.1, h.2.2.1⟩

/-- C14: in the split of an `M_dual` object, both parts resolving to a bin,
the clone is handed to its bin before the original is handed to its own.
When both parts resolve to the same bin index, that bin receives the
transparent part and right after it the opaque part.  And when the result
is the one an earlier `add_object` of an object X left, X having gone to the
bin the opaque part resolves to, that bin holds X first and the opaque part
after it. -/
theorem dual_split_adds_transparent_first (env : Env Bin) (self : CullResult Bin)
    (object : CullableObject) (state ts os : RenderState) (bt bo : Bin)
    (hstate : object._state = some state)
    (hmode : state.get_transparency = some ⟨TransparencyMode.M_dual⟩)
    (hbin : state.get_bin = none ∨ ∃ b, state.get_bin = some b ∧ b.bin_name.isEmpty = true)
    (hts : ts = state.compose get_dual_transparent_state)
    (hos : os = state.compose get_dual_opaque_state)
    (ht : (self.get_bin env (env.get_bin_index ts)).1 = some bt)
    (ho : (self.get_bin env (env.get_bin_index os)).1 = some bo) :
    (self.add_object env object).calls =
      [BinCall.add_object (env.get_bin_index ts) { object with _state := some ts },
       BinCall.add_object (env.get_bin_index os) { object with _state := some os }] ∧
    (env.get_bin_index ts = env.get_bin_index os →
      bin_at (self.add_object env object).result._bins (env.get_bin_index ts).toNat =
        some (env.bin_add_object (env.bin_add_object bt { object with _state := some ts })
          { object with _state := some os })) ∧
    (env.get_bin_index ts ≠ env.get_bin_index os →
      bin_at (self.add_object env object).result._bins (env.get_bin_index ts).toNat =
        some (env.bin_add_object bt { object with _state := some ts }) ∧
      bin_at (self.add_object env object).result._bins (env.get_bin_index os).toNat =
        some (env.bin_add_object bo { object with _state := some os })) ∧
    (∀ (self0 : CullResult Bin) (x : CullableObject) (sx : RenderState),
      self = (self0.add_object env x).result →
      (self0.add_object env x).outcome = Outcome.returned →
      x._state = some sx →
      env.get_bin_index (final_state sx) = env.get_bin_index os →
      ∃ bx,
        bin_at self._bins (env.get_bin_index os).toNat =
          some (env.bin_add_object bx { x with _state := some (final_state sx) }) ∧
        bin_at (self.add_object env object).result._bins (env.get_bin_index os).toNat =
          some (env.bin_add_object
            (if env.get_bin_index ts = env.get_bin_index os then
              env.bin_add_object
                (env.bin_add_object bx { x with _state := some (final_state sx) })
                { object with _state := some ts }
            else env.bin_add_object bx { x with _state := some (final_state sx) })
            { object with _state := some os })) := by
  subst hts hos
  rw [get_bin_fst] at ht ho
  have ht0 := resolve_nonneg env self _ bt ht
  have ho0 := resolve_nonneg env self _ bo ho
  have hs := splits_of_dual state hmode hbin
  have hrun := add_object_split_resolved env self object state bt hstate hs ht
  have hsame : env.get_bin_index (state.compose get_dual_transparent_state) =
      env.get_bin_index (state.compose get_dual_opaque_state) →
      bin_at (self.add_object env object).result._bins
        (env.get_bin_index (state.compose get_dual_transparent_state)).toNat =
        some (env.bin_add_object
          (env.bin_add_object bt
            { object with _state := some (state.compose get_dual_transparent_state) })
          { object with _state := some (state.compose get_dual_opaque_state) }) := by
    intro heq
    rw [hrun, if_pos heq.symm]
    dsimp only
    rw [heq, bin_at_store_bin, if_pos rfl]
  have hdiff : env.get_bin_index (state.compose get_dual_transparent_state) ≠
      env.get_bin_index (state.compose get_dual_opaque_state) →
      bin_at (self.add_object env object).result._bins
        (env.get_bin_index (state.compose get_dual_transparent_state)).toNat =
        some (env.bin_add_object bt
          { object with _state := some (state.compose get_dual_transparent_state) }) ∧
      bin_at (self.add_object env object).result._bins
        (env.get_bin_index (state.compose get_dual_opaque_state)).toNat =
        some (env.bin_add_object bo
          { object with _state := some (state.compose get_dual_opaque_state) }) := by
    intro hne
    have hne2 : ¬ (env.get_bin_index (state.compose get_dual_transparent_state)).toNat =
        (env.get_bin_index (state.compose get_dual_opaque_state)).toNat := by omega
    rw [hrun, if_neg (fun h => hne h.symm), ho]
    dsimp only
    exact ⟨by rw [bin_at_store_bin, if_neg hne2, bin_at_store_bin, if_pos rfl],
      by rw [bin_at_store_bin, if_pos rfl]⟩
  refine ⟨?_, hsame, hdiff, ?_⟩
  · rw [hrun]
    by_cases heq : env.get_bin_index (state.compose get_dual_opaque_state) =
        env.get_bin_index (state.compose get_dual_transparent_state)
    · rw [if_pos heq]
    · rw [if_neg heq, ho]
  · intro self0 x sx hself hret hx hidx
    obtain ⟨bx, hbx⟩ := add_object_returned_slot env self0 x sx hx hret
    rw [← hself, hidx] at hbx
    have hbo : bo = env.bin_add_object bx { x with _state := some (final_state sx) } := by
      rcases resolve_cases env self _ bo ho with hc | ⟨hn, _⟩
      · rw [hbx] at hc
        exact (Option.some.inj hc).symm
      · rw [hbx] at hn
        exact Option.noConfusion hn
    refine ⟨bx, hbx, ?_⟩
    by_cases heq : env.get_bin_index (state.compose get_dual_transparent_state) =
        env.get_bin_index (state.compose get_dual_opaque_state)
    · have hbt : bt = bo := by
        rw [heq, ho] at ht
        exact (Option.some.inj ht).symm
      rw [if_pos heq, ← hbo, ← hbt, ← heq]
      exact hsame heq
    · rw [if_neg heq, ← hbo]
      exact (hdiff heq).2

/-- C14 on the scenario of the specification and on its one-bin variant:
X sits in bin 0 and the `M_dual` object Y is added.  With two bins, bin 0
holds X and then the opaque part of Y; with every state resolving to bin 0,
bin 0 holds X, the transparent part of Y and then the opaque part of Y. -/
theorem dual_split_adds_transparent_first_witness :
    bin_at (result_with_x.add_object scene_env
      (scene_object 2 (scene_state TransparencyMode.M_dual))).result._bins 0 =
      some [scene_object 1 plain_state,
        scene_object 2 ((scene_state TransparencyMode.M_dual).compose get_dual_opaque_state)] ∧
    bin_at (result_with_x.add_object scene_env_one_bin
      (scene_object 2 (scene_state TransparencyMode.M_dual))).result._bins 0 =
      some [scene_object 1 plain_state,
        scene_object 2
          ((scene_state TransparencyMode.M_dual).compose get_dual_transparent_state),
        scene_object 2 ((scene_state TransparencyMode.M_dual).compose get_dual_opaque_state)] :=
  ⟨((dual_split_adds_transparent_first scene_env result_with_x
      (scene_object 2 (scene_state TransparencyMode.M_dual))
      (scene_state TransparencyMode.M_dual)
      ((scene_state TransparencyMode.M_dual).compose get_dual_transparent_state)
      ((scene_state TransparencyMode.M_dual).compose get_dual_opaque_state)
      [] [scene_object 1 plain_state] rfl rfl (Or.inl rfl) rfl rfl rfl rfl).2.2.1
      (by decide)).2,
    (dual_split_adds_transparent_first scene_env_one_bin result_with_x
      (scene_object 2 (scene_state TransparencyMode.M_dual))
      (scene_state TransparencyMode.M_dual)
      ((scene_state TransparencyMode.M_dual).compose get_dual_transparent_state)
      ((scene_state TransparencyMode.M_dual).compose get_dual_opaque_state)
      [scene_object 1 plain_state] [scene_object 1 plain_state]
      rfl rfl (Or.inl rfl) rfl rfl rfl rfl).2.1 rfl⟩

/-- C15: `add_object` is not atomic when it fails.  For an `M_dual` object
without bin override whose transparent part resolves to a bin and whose
opaque part resolves to none, `add_object` fails with the clone already
handed over: the slot of the transparent part holds its bin with the clone
added (a bin the manager just made when the slot was null), every other slot
is as it was, so the bin vector is no longer the one before the call as soon
as the slot was null or adding the clone changes a bin.  When the state is
null, or the first bin index the call resolves yields no bin, the call fails
with the result as it was. -/
theorem add_object_fails_after_clone (env : Env Bin) (self : CullResult Bin)
    (object : CullableObject) (state ts os : RenderState) (bt : Bin)
    (hstate : object._state = some state)
    (hmode : state.get_transparency = some ⟨TransparencyMode.M_dual⟩)
    (hbin : state.get_bin = none ∨ ∃ b, state.get_bin = some b ∧ b.bin_name.isEmpty = true)
    (hts : ts = state.compose get_dual_transparent_state)
    (hos : os = state.compose get_dual_opaque_state)
    (ht : (self.get_bin env (env.get_bin_index ts)).1 = some bt)
    (ho : (self.get_bin env (env.get_bin_index os)).1 = none) :
    (self.add_object env object).outcome = Outcome.assertion_failed ∧
    (self.add_object env object).calls =
      [BinCall.add_object (env.get_bin_index ts) { object with _state := some ts }] ∧
    bin_at (self.add_object env object).result._bins (env.get_bin_index ts).toNat =
      some (env.bin_add_object bt { object with _state := some ts }) ∧
    (∀ j : Nat, (j : Int) ≠ env.get_bin_index ts →
      bin_at (self.add_object env object).result._bins j = bin_at self._bins j) ∧
    (bin_at self._bins (env.get_bin_index ts).toNat = none →
      env.manager_make_new_bin (env.get_bin_index ts) self._gsg = some bt) ∧
    ((bin_at self._bins (env.get_bin_index ts).toNat = none ∨
        env.bin_add_object bt { object with _state := some ts } ≠ bt) →
      (self.add_object env object).result._bins ≠ self._bins) ∧
    (∀ other : CullableObject, other._state = none →
      (self.add_object env other).outcome = Outcome.assertion_failed ∧
      (self.add_object env other).result = self) ∧
    (∀ (other : CullableObject) (st : RenderState), other._state = some st →
      (self.get_bin env (first_bin_index env st)).1 = none →
      (self.add_object env other).outcome = Outcome.assertion_failed ∧
      (self.add_object env other).calls = [] ∧
      (self.add_object env other).result = self) := by
  subst hts hos
  rw [get_bin_fst] at ht ho
  have ht0 := resolve_nonneg env self _ bt ht
  have hs := splits_of_dual state hmode hbin
  have hne : ¬ env.get_bin_index (state.compose get_dual_opaque_state) =
      env.get_bin_index (state.compose get_dual_transparent_state) := by
    intro heq
    rw [heq, ht] at ho
    exact Option.noConfusion ho
  have hrun := add_object_split_resolved env self object state bt hstate hs ht
  rw [if_neg hne, ho] at hrun
  dsimp only at hrun
  have hslot : bin_at (self.add_object env object).result._bins
      (env.get_bin_index (state.compose get_dual_transparent_state)).toNat =
      some (env.bin_add_object bt
        { object with _state := some (state.compose get_dual_transparent_state) }) := by
    rw [hrun]
    dsimp only
    rw [bin_at_store_bin, if_pos rfl]
  refine ⟨by rw [hrun], by rw [hrun], hslot, fun j hj => ?_, fun hnone => ?_,
    fun hch heq => ?_, fun other hother => ?_, fun other st hother hfirst => ?_⟩
  · have hj2 : ¬ j = (env.get_bin_index
        (state.compose get_dual_transparent_state)).toNat := by omega
    rw [hrun]
    dsimp only
    rw [bin_at_store_bin, if_neg hj2]
  · rcases resolve_cases env self _ bt ht with hc | ⟨_, hm⟩
    · rw [hnone] at hc; exact Option.noConfusion hc
    · exact hm
  · rw [heq] at hslot
    rcases hch with hnone | hadd
    · rw [hnone] at hslot
      exact Option.noConfusion hslot
    · rcases resolve_cases env self _ bt ht with hc | ⟨hn, _⟩
      · rw [hc] at hslot
        exact hadd (Option.some.inj hslot).symm
      · rw [hn] at hslot
        exact Option.noConfusion hslot
  · have hrun2 : self.add_object env other = ⟨Outcome.assertion_failed, self, []⟩ := by
      unfold CullResult.add_object
      simp only [hother]
    rw [hrun2]
    exact ⟨rfl, rfl⟩
  · rw [get_bin_fst] at hfirst
    unfold first_bin_index at hfirst
    cases hs2 : splits st with
    | false =>
      rw [hs2] at hfirst
      rw [add_object_unsplit env self other st hother hs2, add_object_final_eq]
      simp only [Bool.false_eq_true, if_false] at hfirst
      rw [hfirst]
      exact ⟨rfl, rfl, rfl⟩
    | true =>
      rw [hs2] at hfirst
      simp only [if_true] at hfirst
      rw [(add_object_split env self other st hother hs2).2, hfirst]
      exact ⟨rfl, rfl, rfl⟩

/-- C15 on a scenario in which the transparent part resolves to bin 1 and
the opaque part to the unregistered bin 99: adding the `M_dual` object Y to
a result without bins fails, and the result now has bin 1 holding the
transparent part of Y. -/
theorem add_object_fails_after_clone_witness :
    (empty_result.add_object scene_env_no_opaque
      (scene_object 2 (scene_state TransparencyMode.M_dual))).outcome =
      Outcome.assertion_failed ∧
    (empty_result.add_object scene_env_no_opaque
      (scene_object 2 (scene_state TransparencyMode.M_dual))).result._bins =
      [none, some [scene_object 2
        ((scene_state TransparencyMode.M_dual).compose get_dual_transparent_state)]] ∧
    (empty_result.add_object scene_env_no_opaque
      (scene_object 2 (scene_state TransparencyMode.M_dual))).result._bins ≠
      empty_result._bins :=
  have h := add_object_fails_after_clone scene_env_no_opaque empty_result
    (scene_object 2 (scene_state TransparencyMode.M_dual))
    (scene_state TransparencyMode.M_dual)
    ((scene_state TransparencyMode.M_dual).compose get_dual_transparent_state)
    ((scene_state TransparencyMode.M_dual).compose get_dual_opaque_state)
    [] rfl rfl (Or.inl rfl) rfl rfl rfl rfl
  ⟨h.1, rfl, h.2.2.2.2.2.1 (Or.inl rfl)⟩

/-- C16: `get_binary_state()` and `get_dual_opaque_state()` are the same
render state, alpha test equal to 1.0 and transparency none, both at the
maximum priority.  Hence two states that agree on everything the override
leaves alone (the bin attribute and the other kinds) compose to the same
state, and the state `add_object` leaves an `M_binary` object with is the
state it leaves the opaque part of a split `M_dual` object with; both are
handed to the bin of the same index. -/
theorem binary_state_is_dual_opaque_state (env : Env Bin) :
    get_binary_state = get_dual_opaque_state ∧
    get_binary_state.alpha_test = some ⟨⟨AlphaTestMode.M_equal, 1⟩, Priority.max⟩ ∧
    get_binary_state.transparency = some ⟨⟨TransparencyMode.M_none⟩, Priority.max⟩ ∧
    (∀ s : RenderState, s.compose get_binary_state = s.compose get_dual_opaque_state) ∧
    (∀ sb sd : RenderState, sb.bin = sd.bin → sb.others = sd.others →
      sb.compose get_binary_state = sd.compose get_dual_opaque_state) ∧
    (∀ (self_b self_d : CullResult Bin) (ob od : CullableObject) (sb sd : RenderState),
      ob._state = some sb → od._state = some sd →
      sb.get_transparency = some ⟨TransparencyMode.M_binary⟩ → splits sd = true →
      sb.bin = sd.bin → sb.others = sd.others →
      final_state sb = final_state sd ∧
      env.get_bin_index (final_state sb) = env.get_bin_index (final_state sd) ∧
      ((self_b.add_object env ob).outcome = Outcome.returned →
        BinCall.add_object (env.get_bin_index (final_state sb))
          { ob with _state := some (final_state sb) } ∈ (self_b.add_object env ob).calls) ∧
      ((self_d.add_object env od).outcome = Outcome.returned →
        BinCall.add_object (env.get_bin_index (final_state sb))
          { od with _state := some (final_state sb) } ∈ (self_d.add_object env od).calls)) := by
  refine ⟨rfl, rfl, rfl, fun s => rfl, compose_binary_eq_compose_dual_opaque, ?_⟩
  intro self_b self_d ob od sb sd hob hod hmb hsd hbin hothers
  have hfs : final_state sb = final_state sd := by
    rw [final_state_of_binary sb hmb, final_state_of_split sd hsd]
    exact compose_binary_eq_compose_dual_opaque sb sd hbin hothers
  refine ⟨hfs, by rw [hfs], add_object_returned_call env self_b ob sb hob, ?_⟩
  rw [hfs]
  exact add_object_returned_call env self_d od sd hod

/-- C16 on the scenario of the specification: an `M_binary` object added
to one result and an `M_dual` object added to another are both left with
the same state and handed to bin 0. -/
theorem binary_state_is_dual_opaque_state_witness :
    final_state (scene_state TransparencyMode.M_binary) =
      final_state (scene_state TransparencyMode.M_dual) ∧
    scene_env.get_bin_index (final_state (scene_state TransparencyMode.M_binary)) = 0 ∧
    BinCall.add_object 0 (scene_object 3 (final_state (scene_state TransparencyMode.M_binary))) ∈
      (empty_result.add_object scene_env
        (scene_object 3 (scene_state TransparencyMode.M_binary))).calls ∧
    BinCall.add_object 0 (scene_object 2 (final_state (scene_state TransparencyMode.M_binary))) ∈
      (result_with_x.add_object scene_env
        (scene_object 2 (scene_state TransparencyMode.M_dual))).calls :=
  have h := (binary_state_is_dual_opaque_state scene_env).2.2.2.2.2
    empty_result result_with_x
    (scene_object 3 (scene_state TransparencyMode.M_binary))
    (scene_object 2 (scene_state TransparencyMode.M_dual))
    (scene_state TransparencyMode.M_binary) (scene_state TransparencyMode.M_dual)
    rfl rfl rfl rfl rfl rfl
  ⟨h.1, rfl, h.2.2.1 rfl, h.2.2.2 rfl⟩

end Panda
